import Mathlib

/-!
# Ball clock

A shallow embedding of `ball-clock.go` and the properties of its simulation
engine.

Go slices are modelled as lists.  Every track owns its backing array (no two
tracks ever share one: balls are copied by value from one track to another),
so value semantics is exact.  The pointers `&sequences.Min`, ... that `dump`
receives are modelled as field selectors (`Track`), which keeps the aliasing
of the call `dump(&sequences.Hour, &sequences.Main, &sequences.Main)`.
A run-time panic (index out of range) is the result `none`.
-/

namespace BallClock

/-! ## Data model -/

/-- Source: `const MIN_SIZE int = 5` -/
def MIN_SIZE : Nat := 5
/-- Source: `const FIVEMIN_SIZE int = 12` -/
def FIVEMIN_SIZE : Nat := 12
/-- Source: `const HOUR_SIZE int = 12` -/
def HOUR_SIZE : Nat := 12

/-- Source: `const MIN_BALL_COUNT = 27` -/
def MIN_BALL_COUNT : Nat := 27
/-- Source: `const MAX_BALL_COUNT = 127` -/
def MAX_BALL_COUNT : Nat := 127

/-- Source: `type Ball int` -/
abbrev Ball := Int

/-- Source: `type Sequences struct { Main, Min, FiveMin, Hour []Ball }` -/
structure Sequences where
  Main : List Ball
  Min : List Ball
  FiveMin : List Ball
  Hour : List Ball
  deriving DecidableEq, Repr

/-- A pointer to one of the four slice fields of a `Sequences` value. -/
inductive Track where
  | Main
  | Min
  | FiveMin
  | Hour
  deriving DecidableEq, Repr

/-- Read through a field pointer: `*p`. -/
def Sequences.load (s : Sequences) : Track → List Ball
  | .Main => s.Main
  | .Min => s.Min
  | .FiveMin => s.FiveMin
  | .Hour => s.Hour

/-- Write through a field pointer: `*p = v`. -/
def Sequences.store (s : Sequences) (p : Track) (v : List Ball) : Sequences :=
  match p with
  | .Main => { s with Main := v }
  | .Min => { s with Min := v }
  | .FiveMin => { s with FiveMin := v }
  | .Hour => { s with Hour := v }

/-! ## `fillSequencialArray` -/

/-- The loop `for index := 1; index <= size; index++ { array[index-1] = Ball(index) }`;
the first argument bounds the number of iterations. -/
def fillLoop (size : Nat) : Nat → Nat → List Ball → List Ball
  | 0, _, array => array
  | fuel + 1, index, array =>
    if index ≤ size then
      fillLoop size fuel (index + 1) (array.set (index - 1) (index : Int))
    else array

/-- Source function `fillSequencialArray(size)`: `make([]Ball, size)` (all zero), then the loop.
The size is a natural number: `make` panics on a negative one, and `main`
passes a validated ball count. -/
def fillSequencialArray (size : Nat) : List Ball :=
  fillLoop size size 1 (List.replicate size 0)

/-! ## `sequenceIsOrdered` -/

/-- The loop `for index := 0; index < len(array)-1; index++` with its early
`return false`; the first argument bounds the number of iterations. -/
def sequenceIsOrderedLoop (array : List Ball) : Nat → Nat → Bool
  | 0, _ => true
  | fuel + 1, index =>
    if index + 1 < array.length then
      if array.getD index 0 ≥ array.getD (index + 1) 0 then false
      else sequenceIsOrderedLoop array fuel (index + 1)
    else true

/-- Source function `sequenceIsOrdered(array)`. -/
def sequenceIsOrdered (array : List Ball) : Bool :=
  sequenceIsOrderedLoop array array.length 0

set_option linter.constructorNameAsVariable false

/-! ## `dump` and `simulateOneMinute` -/

/-- The loop of `dump`, `for index := len(*dumpSequence) - 2; index >= 0; index--`,
with `count = index + 1` iterations left:
`*Main = append(*Main, (*dumpSequence)[index])`. -/
def dumpLoop (dumpSequence Main : Track) : Nat → Sequences → Option Sequences
  | 0, s => some s
  | index + 1, s =>
    match (s.load dumpSequence)[index]? with
    | none => none
    | some ball => dumpLoop dumpSequence Main index (s.store Main (s.load Main ++ [ball]))

/-- Source function `dump(dumpSequence, nextSequence, Main)`. -/
def dump (dumpSequence nextSequence Main : Track) (s : Sequences) : Option Sequences :=
  let len := (s.load dumpSequence).length
  match (s.load dumpSequence)[len - 1]? with
  | none => none
  | some lastBall =>
    match dumpLoop dumpSequence Main (len - 1) s with
    | none => none
    | some s =>
      let s := s.store nextSequence (s.load nextSequence ++ [lastBall])
      some (s.store dumpSequence [])

/-- Source function `simulateOneMinute(sequences)`. -/
def simulateOneMinute (sequences : Sequences) : Option Sequences :=
  match sequences.Main with
  | [] => none
  | ballToMove :: rest =>
    let sequences := { sequences with Main := rest }
    let sequences := { sequences with Min := sequences.Min ++ [ballToMove] }
    if sequences.Min.length = MIN_SIZE then
      match dump .Min .FiveMin .Main sequences with
      | none => none
      | some sequences =>
        if sequences.FiveMin.length = FIVEMIN_SIZE then
          match dump .FiveMin .Hour .Main sequences with
          | none => none
          | some sequences =>
            if sequences.Hour.length = HOUR_SIZE then
              dump .Hour .Main .Main sequences
            else some sequences
        else some sequences
    else some sequences

/-- The function `simulateOneMinute` applied `minutes` times. -/
def simulate : Nat → Sequences → Option Sequences
  | 0, s => some s
  | minutes + 1, s =>
    match simulateOneMinute s with
    | none => none
    | some s => simulate minutes s

/-- The state `main` builds before its loop: `Sequences{}` with
`Main = fillSequencialArray(numBalls)`. -/
def initialSequences (numBalls : Nat) : Sequences :=
  { Main := fillSequencialArray numBalls, Min := [], FiveMin := [], Hour := [] }

/-! ## The driving loop of `main` -/

/-- Source constant `math.MaxInt64`. -/
def MaxInt64 : Int := 9223372036854775807

/-- The value a 64-bit two's complement `int` holds after an operation whose
exact result is `x`. -/
def wrapInt64 (x : Int) : Int :=
  (x + 9223372036854775808) % 18446744073709551616 - 9223372036854775808

/-- The mode-1 end condition of `main`:
`len(sequences.Main) == numBalls && sequenceIsOrdered(sequences.Main)`. -/
def cycleComplete (numBalls : Nat) (sequences : Sequences) : Bool :=
  sequences.Main.length == numBalls && sequenceIsOrdered sequences.Main

/-- How a bounded run of the driving loop ends: the loop was left with these
values of `sequences` and `minutesSimulated`, or a step panicked, or the loop
is still running when the bound on the iterations is reached. -/
inductive Outcome where
  | finished (sequences : Sequences) (minutesSimulated : Int)
  | panicked
  | running
  deriving DecidableEq, Repr

/-- The loop `for !finished { ... }` of `main`; the first explicit argument
bounds the number of iterations. -/
def mainLoop (numBalls : Nat) (minutesToSimulate : Int) (mode : Int) :
    Nat → Sequences → Int → Outcome
  | 0, _, _ => .running
  | fuel + 1, sequences, minutesSimulated =>
    match simulateOneMinute sequences with
    | none => .panicked
    | some sequences =>
      let minutesSimulated := wrapInt64 (minutesSimulated + 1)
      if mode = 2 ∧ minutesSimulated ≥ minutesToSimulate then
        .finished sequences minutesSimulated
      else if mode = 1 ∧ cycleComplete numBalls sequences = true then
        .finished sequences minutesSimulated
      else mainLoop numBalls minutesToSimulate mode fuel sequences minutesSimulated

/-- The simulation part of `main`, from the validated input to the end of the
loop: the state is created, `minutesSimulated` starts at 0, the loop runs. -/
def mainRun (numBalls : Nat) (minutesToSimulate : Int) (mode : Int) (fuel : Nat) : Outcome :=
  mainLoop numBalls minutesToSimulate mode fuel (initialSequences numBalls) 0

/-- The day figure of mode 1, `int(minutesSimulated/60.0/24.0)`: the constants
are converted to `int`, so both divisions are Go integer divisions. -/
def days (minutesSimulated : Int) : Int :=
  (minutesSimulated.tdiv 60).tdiv 24

/-! ## Input validation -/

/-- The two errors of the Go library function `strconv.Atoi`: the text is not
a decimal integer (`ErrSyntax`), or its value does not fit an `int`
(`ErrRange`). -/
inductive NumError where
  | notANumber
  | outOfRange
  deriving DecidableEq, Repr

/-- The loop over the digits in the library function `strconv.Atoi`: the first
byte that is not a decimal digit is a syntax error; a value above `2^64 - 1`
met before that is a range error. -/
def parseDigits : List Char → Nat → Except NumError Nat
  | [], n => .ok n
  | c :: cs, n =>
    if 48 ≤ c.toNat ∧ c.toNat ≤ 57 then
      let n1 := n * 10 + (c.toNat - 48)
      if n1 > 18446744073709551615 then .error .outOfRange
      else parseDigits cs n1
    else .error .notANumber

/-- A model of the Go library function `strconv.Atoi` on a 64-bit platform,
after its documentation: an optional sign (`+` is 43, `-` is 45) followed by
at least one decimal digit; the result is the value and no error, or 0 with a
syntax error, or the nearest `int` with a range error. -/
def Atoi (s : String) : Int × Option NumError :=
  let neg : Bool := s.toList.head?.map Char.toNat = some 45
  let signed : Bool := neg || s.toList.head?.map Char.toNat = some 43
  let digits := if signed then s.toList.tail else s.toList
  if digits = [] then (0, some .notANumber)
  else
    match parseDigits digits 0 with
    | .error .notANumber => (0, some .notANumber)
    | .error .outOfRange =>
      (if neg then -9223372036854775808 else 9223372036854775807, some .outOfRange)
    | .ok n =>
      if neg then
        if n > 9223372036854775808 then (-9223372036854775808, some .outOfRange)
        else (-(n : Int), none)
      else
        if n > 9223372036854775807 then (9223372036854775807, some .outOfRange)
        else ((n : Int), none)

/-- The errors `handleUserInput` returns; each `fmt.Errorf` message is
represented by the values it is formatted from. -/
inductive InputError where
  | nonInteger (input : String) (err : NumError)
  | notBetween (text : String) (min max number : Int)
  | argumentCount
  deriving DecidableEq, Repr

/-- Source function `validateIntBetween(input, min, max, text)`, returning
`(number, err)`. -/
def validateIntBetween (input : String) (min max : Int) (text : String) :
    Int × Option InputError :=
  match Atoi input with
  | (number, some err) => (number, some (.nonInteger input err))
  | (number, none) =>
    if number < min ∨ number > max then (number, some (.notBetween text min max number))
    else (number, none)

/-- Source function `handleUserInput(args)`, returning
`(numBalls, minutesToSimulate, mode, err)`; the usage text it prints is left
out. -/
def handleUserInput (args : List String) : Int × Int × Int × Option InputError :=
  let numBalls : Int := 0
  let (minutesToSimulate, mode, err) : Int × Int × Option InputError :=
    if args.length = 3 then
      let r := validateIntBetween (args.getD 2 "") 0 MaxInt64 "minutes to simulate"
      (r.1, 2, r.2)
    else if args.length = 2 then
      (MaxInt64, 1, none)
    else
      (0, 0, some .argumentCount)
  match err with
  | some e => (numBalls, minutesToSimulate, mode, some e)
  | none =>
    let r := validateIntBetween (args.getD 1 "") (MIN_BALL_COUNT : Int) (MAX_BALL_COUNT : Int)
      "number of balls"
    (r.1, minutesToSimulate, mode, r.2)

/-! ## Auxiliary notions for the proofs -/

/-- The balls `1, 2, ..., n` in ascending order. -/
def ascending (n : Nat) : List Ball :=
  (List.range' 1 n).map (fun i : Nat => (i : Int))

/-- All the balls of a state, track after track. -/
def Sequences.all (s : Sequences) : List Ball :=
  s.Main ++ s.Min ++ s.FiveMin ++ s.Hour

/-- A state with every ball renamed by `f`. -/
def Sequences.map (f : Ball → Ball) (s : Sequences) : Sequences :=
  ⟨s.Main.map f, s.Min.map f, s.FiveMin.map f, s.Hour.map f⟩

/-- The ball at the 1-based position `i` of the track `p`. -/
def ballAt (p : List Ball) (i : Ball) : Ball :=
  p.getD (i.toNat - 1) 0

/-- The Main track after `k` half-days, computed from the Main track `p` after
one half-day: a half-day moves the ball at position `p[i]` to position `i`. -/
def afterHalfDays (p : List Ball) : Nat → List Ball
  | 0 => ascending p.length
  | k + 1 => p.map (ballAt (afterHalfDays p k))

/-- The Main track of the 27-ball clock after 720 minutes. -/
def halfDay27 : List Ball :=
  [3, 26, 13, 2, 21, 16, 8, 14, 6, 18, 5, 12, 10, 11, 9, 4, 23, 19, 25, 1, 27, 22, 17, 7, 15,
    24, 20]

/-- The Main track of the 30-ball clock after 720 minutes. -/
def halfDay30 : List Ball :=
  [5, 19, 13, 27, 7, 21, 29, 30, 14, 16, 24, 3, 9, 8, 1, 20, 10, 11, 28, 18, 26, 2, 22, 23, 15,
    4, 17, 12, 6, 25]

/-! ## Pointers into the state -/

theorem load_store_same (s : Sequences) (p : Track) (v : List Ball) :
    (s.store p v).load p = v := by
  cases p <;> rfl

theorem load_store_ne (s : Sequences) (p q : Track) (v : List Ball) (h : q ≠ p) :
    (s.store p v).load q = s.load q := by
  cases p <;> cases q <;> first | rfl | exact absurd rfl h

theorem store_store (s : Sequences) (p : Track) (v w : List Ball) :
    (s.store p v).store p w = s.store p w := by
  cases p <;> rfl

/-! ## What `dump` does -/

theorem dumpLoop_eq (src mn : Track) (hne : src ≠ mn) (k : Nat) :
    ∀ s : Sequences, k ≤ (s.load src).length →
      dumpLoop src mn k s
        = some (s.store mn (s.load mn ++ ((s.load src).take k).reverse)) := by
  induction k with
  | zero =>
    intro s _
    cases mn <;> simp [dumpLoop, Sequences.store, Sequences.load]
  | succ k ih =>
    intro s hk
    have hlt : k < (s.load src).length := hk
    have hget : (s.load src)[k]? = some ((s.load src)[k]) := List.getElem?_eq_getElem hlt
    rw [dumpLoop, hget]
    simp only
    rw [ih _ (by rw [load_store_ne _ _ _ _ hne]; omega)]
    rw [load_store_ne _ _ _ _ hne, load_store_same, store_store]
    have hrev : ((s.load src).take (k + 1)).reverse
        = (s.load src)[k] :: ((s.load src).take k).reverse := by
      rw [List.take_succ, hget, List.reverse_append]
      rfl
    rw [hrev, List.append_assoc]
    rfl

theorem dump_eq (src dst mn : Track) (hne : src ≠ mn) (s : Sequences)
    (h : List Ball) (t : Ball) (hs : s.load src = h ++ [t]) :
    dump src dst mn s
      = some (((s.store mn (s.load mn ++ h.reverse)).store dst
          ((s.store mn (s.load mn ++ h.reverse)).load dst ++ [t])).store src []) := by
  have hlen : (s.load src).length = h.length + 1 := by simp [hs]
  have hlast : (s.load src)[(s.load src).length - 1]? = some t := by
    rw [hlen, hs]; simp
  unfold dump
  simp only [hlast]
  rw [dumpLoop_eq src mn hne _ s (by omega)]
  simp only
  rw [hlen, hs]
  simp

theorem dump_Min (m mi f h : List Ball) (t : Ball) :
    dump .Min .FiveMin .Main ⟨m, mi ++ [t], f, h⟩ = some ⟨m ++ mi.reverse, [], f ++ [t], h⟩ := by
  rw [dump_eq .Min .FiveMin .Main (by decide) ⟨m, mi ++ [t], f, h⟩ mi t rfl]
  rfl

theorem dump_FiveMin (m mi f h : List Ball) (t : Ball) :
    dump .FiveMin .Hour .Main ⟨m, mi, f ++ [t], h⟩ = some ⟨m ++ f.reverse, mi, [], h ++ [t]⟩ := by
  rw [dump_eq .FiveMin .Hour .Main (by decide) ⟨m, mi, f ++ [t], h⟩ f t rfl]
  rfl

theorem dump_Hour (m mi f h : List Ball) (t : Ball) :
    dump .Hour .Main .Main ⟨m, mi, f, h ++ [t]⟩ = some ⟨m ++ h.reverse ++ [t], mi, f, []⟩ := by
  rw [dump_eq .Hour .Main .Main (by decide) ⟨m, mi, f, h ++ [t]⟩ h t rfl]
  rfl

/-! ## What one minute does -/

theorem simulateOneMinute_empty (s : Sequences) (hm : s.Main = []) :
    simulateOneMinute s = none := by
  unfold simulateOneMinute
  rw [hm]

theorem simulateOneMinute_tick (s : Sequences) (b : Ball) (r : List Ball)
    (hm : s.Main = b :: r) (h1 : s.Min.length ≠ 4) :
    simulateOneMinute s = some ⟨r, s.Min ++ [b], s.FiveMin, s.Hour⟩ := by
  unfold simulateOneMinute
  rw [hm]
  have : ¬ (s.Min ++ [b]).length = MIN_SIZE := by
    simp only [List.length_append, List.length_singleton, MIN_SIZE]; omega
  simp only [this, if_false]

theorem simulateOneMinute_dump1 (s : Sequences) (b : Ball) (r : List Ball)
    (hm : s.Main = b :: r) (h1 : s.Min.length = 4) (h2 : s.FiveMin.length ≠ 11) :
    simulateOneMinute s = some ⟨r ++ s.Min.reverse, [], s.FiveMin ++ [b], s.Hour⟩ := by
  obtain ⟨m, mi, f, h⟩ := s
  simp only at hm h1 h2 ⊢
  subst hm
  have e1 : (mi ++ [b]).length = MIN_SIZE := by
    simp only [List.length_append, List.length_singleton, MIN_SIZE]; omega
  have e2 : ¬ (f ++ [b]).length = FIVEMIN_SIZE := by
    simp only [List.length_append, List.length_singleton, FIVEMIN_SIZE]; omega
  simp only [simulateOneMinute, e1, if_true, dump_Min, e2, if_false]

theorem simulateOneMinute_dump2 (s : Sequences) (b : Ball) (r : List Ball)
    (hm : s.Main = b :: r) (h1 : s.Min.length = 4) (h2 : s.FiveMin.length = 11)
    (h3 : s.Hour.length ≠ 11) :
    simulateOneMinute s
      = some ⟨r ++ s.Min.reverse ++ s.FiveMin.reverse, [], [], s.Hour ++ [b]⟩ := by
  obtain ⟨m, mi, f, h⟩ := s
  simp only at hm h1 h2 h3 ⊢
  subst hm
  have e1 : (mi ++ [b]).length = MIN_SIZE := by
    simp only [List.length_append, List.length_singleton, MIN_SIZE]; omega
  have e2 : (f ++ [b]).length = FIVEMIN_SIZE := by
    simp only [List.length_append, List.length_singleton, FIVEMIN_SIZE]; omega
  have e3 : ¬ (h ++ [b]).length = HOUR_SIZE := by
    simp only [List.length_append, List.length_singleton, HOUR_SIZE]; omega
  simp only [simulateOneMinute, e1, if_true, dump_Min, e2, dump_FiveMin, e3, if_false]

theorem simulateOneMinute_dump3 (s : Sequences) (b : Ball) (r : List Ball)
    (hm : s.Main = b :: r) (h1 : s.Min.length = 4) (h2 : s.FiveMin.length = 11)
    (h3 : s.Hour.length = 11) :
    simulateOneMinute s
      = some ⟨r ++ s.Min.reverse ++ s.FiveMin.reverse ++ s.Hour.reverse ++ [b], [], [], []⟩ := by
  obtain ⟨m, mi, f, h⟩ := s
  simp only at hm h1 h2 h3 ⊢
  subst hm
  have e1 : (mi ++ [b]).length = MIN_SIZE := by
    simp only [List.length_append, List.length_singleton, MIN_SIZE]; omega
  have e2 : (f ++ [b]).length = FIVEMIN_SIZE := by
    simp only [List.length_append, List.length_singleton, FIVEMIN_SIZE]; omega
  have e3 : (h ++ [b]).length = HOUR_SIZE := by
    simp only [List.length_append, List.length_singleton, HOUR_SIZE]; omega
  simp only [simulateOneMinute, e1, if_true, dump_Min, e2, dump_FiveMin, e3, dump_Hour]

/-! ## The initial track -/

theorem fillLoop_eq (size : Nat) :
    ∀ (fuel k : Nat) (array : List Ball), fuel + k = size → array.length = size →
      fillLoop size fuel (k + 1) array
        = array.take k ++ (List.range' (k + 1) fuel).map (fun i : Nat => (i : Int)) := by
  intro fuel
  induction fuel with
  | zero =>
    intro k array hk hlen
    have : k = array.length := by omega
    subst this
    simp [fillLoop]
  | succ fuel ih =>
    intro k array hk hlen
    have hle : k + 1 ≤ size := by omega
    rw [fillLoop, if_pos hle, ih (k + 1) _ (by omega) (by simpa using hlen)]
    have hset : (array.set k ((k + 1 : Nat) : Int)).take (k + 1)
        = array.take k ++ [((k + 1 : Nat) : Int)] := by
      rw [List.set_eq_take_append_cons_drop, if_pos (by omega)]
      rw [List.take_append_eq_append_take]
      simp [List.length_take, Nat.min_eq_left (show k ≤ array.length by omega)]
    simp only [Nat.add_sub_cancel]
    rw [hset, List.range'_succ]
    simp

theorem fillSequencialArray_eq (size : Nat) : fillSequencialArray size = ascending size := by
  unfold fillSequencialArray ascending
  rw [fillLoop_eq size size 0 _ (by omega) (by simp)]
  simp

theorem ascending_length (n : Nat) : (ascending n).length = n := by
  simp [ascending]

theorem ascending_sorted (n : Nat) : (ascending n).Sorted (· < ·) := by
  unfold ascending List.Sorted
  rw [List.pairwise_map]
  exact (List.pairwise_lt_range' 1 n).imp (fun h => by exact_mod_cast h)

/-! ## The order check -/

theorem sequenceIsOrderedLoop_iff (array : List Ball) :
    ∀ (fuel index : Nat), array.length ≤ fuel + index + 1 →
      (sequenceIsOrderedLoop array fuel index = true ↔
        ∀ i, index ≤ i → i + 1 < array.length → array.getD i 0 < array.getD (i + 1) 0) := by
  intro fuel
  induction fuel with
  | zero =>
    intro index h
    simp only [sequenceIsOrderedLoop, true_iff]
    intro i hi hlt
    omega
  | succ fuel ih =>
    intro index h
    rw [sequenceIsOrderedLoop]
    by_cases hlt : index + 1 < array.length
    · rw [if_pos hlt]
      by_cases hge : array.getD index 0 ≥ array.getD (index + 1) 0
      · rw [if_pos hge]
        constructor
        · intro hf; exact absurd hf (by simp)
        · intro hall
          exact absurd (hall index (le_refl _) hlt) (not_lt.mpr hge)
      · rw [if_neg hge, ih (index + 1) (by omega)]
        constructor
        · intro hall i hi hil
          rcases Nat.eq_or_lt_of_le hi with heq | hlt2
          · subst heq; exact lt_of_not_ge hge
          · exact hall i hlt2 hil
        · intro hall i hi hil
          exact hall i (by omega) hil
    · rw [if_neg hlt]
      simp only [true_iff]
      intro i hi hil
      omega

theorem sequenceIsOrdered_iff_getD (array : List Ball) :
    sequenceIsOrdered array = true ↔
      ∀ i, i + 1 < array.length → array.getD i 0 < array.getD (i + 1) 0 := by
  unfold sequenceIsOrdered
  rw [sequenceIsOrderedLoop_iff array array.length 0 (by omega)]
  constructor
  · intro h i hi; exact h i (Nat.zero_le _) hi
  · intro h i _ hi; exact h i hi

theorem sequenceIsOrdered_iff_sorted (array : List Ball) :
    sequenceIsOrdered array = true ↔ array.Sorted (· < ·) := by
  rw [sequenceIsOrdered_iff_getD, List.Sorted, ← List.chain'_iff_pairwise, List.chain'_iff_get]
  constructor
  · intro h i hi
    have h1 : i + 1 < array.length := by omega
    have := h i h1
    rw [List.getD_eq_getElem _ _ (by omega : i < array.length),
      List.getD_eq_getElem _ _ h1] at this
    simpa using this
  · intro h i hi
    have := h i (by omega)
    rw [List.getD_eq_getElem _ _ (by omega : i < array.length),
      List.getD_eq_getElem _ _ hi]
    simpa using this

/-! ## The invariant: conservation, and the tracks read the elapsed time -/

theorem simulate_succ (M : Nat) :
    ∀ s : Sequences, simulate (M + 1) s = (simulate M s).bind simulateOneMinute := by
  induction M with
  | zero =>
    intro s
    simp only [simulate, Option.some_bind]
    cases simulateOneMinute s <;> rfl
  | succ M ih =>
    intro s
    rw [simulate]
    cases h : simulateOneMinute s with
    | none => simp [simulate, h]
    | some t =>
      simp only
      rw [ih t]
      conv_rhs => rw [simulate, h]

theorem simulate_add (A B : Nat) (s : Sequences) :
    simulate (A + B) s = (simulate A s).bind (simulate B) := by
  induction B with
  | zero => simp [simulate]
  | succ B ih =>
    rw [← Nat.add_assoc, simulate_succ, ih, Option.bind_assoc]
    congr 1
    funext t
    rw [simulate_succ]

theorem perm_tick (b : Ball) (r mi f h : List Ball) :
    (r ++ (mi ++ [b]) ++ f ++ h).Perm (b :: r ++ mi ++ f ++ h) := by
  rw [List.perm_iff_count]
  intro a
  simp only [List.count_append, List.count_cons, List.count_nil]
  omega

theorem perm_dump1 (b : Ball) (r mi f h : List Ball) :
    (r ++ mi.reverse ++ [] ++ (f ++ [b]) ++ h).Perm (b :: r ++ mi ++ f ++ h) := by
  rw [List.perm_iff_count]
  intro a
  simp only [List.count_append, List.count_cons, List.count_nil, List.count_reverse]
  omega

theorem perm_dump2 (b : Ball) (r mi f h : List Ball) :
    (r ++ mi.reverse ++ f.reverse ++ [] ++ [] ++ (h ++ [b])).Perm (b :: r ++ mi ++ f ++ h) := by
  rw [List.perm_iff_count]
  intro a
  simp only [List.count_append, List.count_cons, List.count_nil, List.count_reverse]
  omega

theorem perm_dump3 (b : Ball) (r mi f h : List Ball) :
    (r ++ mi.reverse ++ f.reverse ++ h.reverse ++ [b] ++ [] ++ [] ++ []).Perm
      (b :: r ++ mi ++ f ++ h) := by
  rw [List.perm_iff_count]
  intro a
  simp only [List.count_append, List.count_cons, List.count_nil, List.count_reverse]
  omega

theorem simulateOneMinute_inv (L : List Ball) (hL : 27 ≤ L.length) (M : Nat) (s : Sequences)
    (hp : s.all.Perm L) (h1 : s.Min.length = M % 5) (h2 : s.FiveMin.length = M / 5 % 12)
    (h3 : s.Hour.length = M / 60 % 12) :
    ∃ t, simulateOneMinute s = some t ∧ t.all.Perm L ∧ t.Min.length = (M + 1) % 5 ∧
      t.FiveMin.length = (M + 1) / 5 % 12 ∧ t.Hour.length = (M + 1) / 60 % 12 := by
  have hlen : s.Main.length + s.Min.length + s.FiveMin.length + s.Hour.length = L.length := by
    rw [← hp.length_eq]; simp only [Sequences.all, List.length_append]
  cases hm : s.Main with
  | nil =>
    rw [hm] at hlen
    simp only [List.length_nil] at hlen
    omega
  | cons b r =>
    have hp2 : (b :: r ++ s.Min ++ s.FiveMin ++ s.Hour).Perm L := by
      have := hp
      rw [Sequences.all, hm] at this
      exact this
    by_cases c1 : s.Min.length = 4
    · by_cases c2 : s.FiveMin.length = 11
      · by_cases c3 : s.Hour.length = 11
        · refine ⟨_, simulateOneMinute_dump3 s b r hm c1 c2 c3, (perm_dump3 b r _ _ _).trans hp2,
            ?_, ?_, ?_⟩ <;> simp only [List.length_nil] <;> omega
        · refine ⟨_, simulateOneMinute_dump2 s b r hm c1 c2 c3, (perm_dump2 b r _ _ _).trans hp2,
            ?_, ?_, ?_⟩ <;>
            simp only [List.length_nil, List.length_append, List.length_singleton] <;> omega
      · refine ⟨_, simulateOneMinute_dump1 s b r hm c1 c2, (perm_dump1 b r _ _ _).trans hp2,
          ?_, ?_, ?_⟩ <;>
          simp only [List.length_nil, List.length_append, List.length_singleton] <;> omega
    · refine ⟨_, simulateOneMinute_tick s b r hm c1, (perm_tick b r _ _ _).trans hp2,
        ?_, ?_, ?_⟩ <;>
        simp only [List.length_nil, List.length_append, List.length_singleton] <;> omega

theorem simulate_inv (N : Nat) (hN : 27 ≤ N) (M : Nat) :
    ∃ s, simulate M (initialSequences N) = some s ∧ s.all.Perm (ascending N) ∧
      s.Min.length = M % 5 ∧ s.FiveMin.length = M / 5 % 12 ∧ s.Hour.length = M / 60 % 12 := by
  induction M with
  | zero =>
    refine ⟨initialSequences N, rfl, ?_, rfl, rfl, rfl⟩
    simp [Sequences.all, initialSequences, fillSequencialArray_eq]
  | succ M ih =>
    obtain ⟨s, hs, hp, h1, h2, h3⟩ := ih
    obtain ⟨t, ht, hp2, g1, g2, g3⟩ :=
      simulateOneMinute_inv (ascending N) (by rw [ascending_length]; exact hN) M s hp h1 h2 h3
    exact ⟨t, by rw [simulate_succ, hs]; exact ht, hp2, g1, g2, g3⟩

theorem reachable_inv (N : Nat) (hN : 27 ≤ N) (M : Nat) (s : Sequences)
    (hs : simulate M (initialSequences N) = some s) :
    s.all.Perm (ascending N) ∧ s.Min.length = M % 5 ∧ s.FiveMin.length = M / 5 % 12 ∧
      s.Hour.length = M / 60 % 12 := by
  obtain ⟨t, ht, h⟩ := simulate_inv N hN M
  rw [hs] at ht
  cases ht
  exact h

theorem ascending_count (N : Nat) (b : Ball) :
    (ascending N).count b = if 1 ≤ b ∧ b ≤ (N : Int) then 1 else 0 := by
  have hnd : (ascending N).Nodup := (ascending_sorted N).nodup
  rw [List.count_eq_of_nodup hnd]
  have hmem : b ∈ ascending N ↔ 1 ≤ b ∧ b ≤ (N : Int) := by
    simp only [ascending, List.mem_map, List.mem_range'_1]
    constructor
    · rintro ⟨i, ⟨h1, h2⟩, rfl⟩
      constructor
      · exact_mod_cast h1
      · exact_mod_cast (by omega : i ≤ N)
    · rintro ⟨h1, h2⟩
      have h3 : ((b.toNat : Nat) : Int) = b := Int.toNat_of_nonneg (by linarith)
      refine ⟨b.toNat, ⟨?_, ?_⟩, h3⟩
      · have : (1 : Int) ≤ (b.toNat : Int) := by rw [h3]; exact h1
        exact_mod_cast this
      · have : (b.toNat : Int) ≤ (N : Int) := by rw [h3]; exact h2
        have : b.toNat ≤ N := by exact_mod_cast this
        omega
  by_cases h : b ∈ ascending N
  · rw [if_pos h, if_pos (hmem.mp h)]
  · rw [if_neg h, if_neg (fun h2 => h (hmem.mpr h2))]

theorem main_ne_nil (N : Nat) (hN : 27 ≤ N) (M : Nat) (s : Sequences)
    (hs : simulate M (initialSequences N) = some s) : s.Main ≠ [] := by
  obtain ⟨hp, h1, h2, h3⟩ := reachable_inv N hN M s hs
  have hlen := hp.length_eq
  rw [ascending_length] at hlen
  simp only [Sequences.all, List.length_append] at hlen
  intro h
  rw [h] at hlen
  simp only [List.length_nil] at hlen
  omega

theorem cycleComplete_iff (N : Nat) (hN : 27 ≤ N) (M : Nat) (s : Sequences)
    (hs : simulate M (initialSequences N) = some s) :
    cycleComplete N s = true ↔ s = initialSequences N := by
  obtain ⟨hp, -, -, -⟩ := reachable_inv N hN M s hs
  constructor
  · intro h
    simp only [cycleComplete, Bool.and_eq_true, beq_iff_eq] at h
    obtain ⟨hl, ho⟩ := h
    have hlen := hp.length_eq
    rw [ascending_length] at hlen
    simp only [Sequences.all, List.length_append] at hlen
    have e1 : s.Min = [] := List.length_eq_zero.mp (by omega)
    have e2 : s.FiveMin = [] := List.length_eq_zero.mp (by omega)
    have e3 : s.Hour = [] := List.length_eq_zero.mp (by omega)
    have hp2 : s.Main.Perm (ascending N) := by
      have := hp
      simp only [Sequences.all, e1, e2, e3, List.append_nil] at this
      exact this
    have e0 : s.Main = ascending N :=
      List.eq_of_perm_of_sorted hp2 ((sequenceIsOrdered_iff_sorted _).mp ho) (ascending_sorted N)
    obtain ⟨m, mi, f, h⟩ := s
    simp only at e0 e1 e2 e3
    subst e0 e1 e2 e3
    simp [initialSequences, fillSequencialArray_eq]
  · intro h
    subst h
    simp only [cycleComplete, initialSequences, fillSequencialArray_eq, ascending_length,
      beq_self_eq_true, Bool.true_and]
    exact (sequenceIsOrdered_iff_sorted _).mpr (ascending_sorted N)

/-! ## One minute can be undone -/

theorem simulateOneMinute_cases (s t : Sequences) (h : simulateOneMinute s = some t) :
    ∃ b r, s.Main = b :: r ∧
      ((s.Min.length ≠ 4 ∧ t = ⟨r, s.Min ++ [b], s.FiveMin, s.Hour⟩) ∨
       (s.Min.length = 4 ∧ s.FiveMin.length ≠ 11 ∧
          t = ⟨r ++ s.Min.reverse, [], s.FiveMin ++ [b], s.Hour⟩) ∨
       (s.Min.length = 4 ∧ s.FiveMin.length = 11 ∧ s.Hour.length ≠ 11 ∧
          t = ⟨r ++ s.Min.reverse ++ s.FiveMin.reverse, [], [], s.Hour ++ [b]⟩) ∨
       (s.Min.length = 4 ∧ s.FiveMin.length = 11 ∧ s.Hour.length = 11 ∧
          t = ⟨r ++ s.Min.reverse ++ s.FiveMin.reverse ++ s.Hour.reverse ++ [b], [], [], []⟩)) := by
  cases hm : s.Main with
  | nil => rw [simulateOneMinute_empty s hm] at h; cases h
  | cons b r =>
    refine ⟨b, r, rfl, ?_⟩
    by_cases c1 : s.Min.length = 4
    · by_cases c2 : s.FiveMin.length = 11
      · by_cases c3 : s.Hour.length = 11
        · rw [simulateOneMinute_dump3 s b r hm c1 c2 c3] at h
          exact Or.inr (Or.inr (Or.inr ⟨c1, c2, c3, (Option.some.inj h).symm⟩))
        · rw [simulateOneMinute_dump2 s b r hm c1 c2 c3] at h
          exact Or.inr (Or.inr (Or.inl ⟨c1, c2, c3, (Option.some.inj h).symm⟩))
      · rw [simulateOneMinute_dump1 s b r hm c1 c2] at h
        exact Or.inr (Or.inl ⟨c1, c2, (Option.some.inj h).symm⟩)
    · rw [simulateOneMinute_tick s b r hm c1] at h
      exact Or.inl ⟨c1, (Option.some.inj h).symm⟩

theorem snoc_ne_nil (l : List Ball) (b : Ball) : l ++ [b] ≠ [] := by
  simp

theorem simulateOneMinute_injective (s s' t : Sequences)
    (h : simulateOneMinute s = some t) (h' : simulateOneMinute s' = some t) : s = s' := by
  obtain ⟨b, r, hm, hc⟩ := simulateOneMinute_cases s t h
  obtain ⟨b', r', hm', hc'⟩ := simulateOneMinute_cases s' t h'
  obtain ⟨m, mi, f, hr⟩ := s
  obtain ⟨m', mi', f', hr'⟩ := s'
  simp only at hm hm' hc hc'
  subst hm hm'
  rcases hc with ⟨c1, rfl⟩ | ⟨c1, c2, rfl⟩ | ⟨c1, c2, c3, rfl⟩ | ⟨c1, c2, c3, rfl⟩ <;>
    rcases hc' with ⟨d1, e⟩ | ⟨d1, d2, e⟩ | ⟨d1, d2, d3, e⟩ | ⟨d1, d2, d3, e⟩ <;>
    simp only [Sequences.mk.injEq] at e <;>
    obtain ⟨e0, e1, e2, e3⟩ := e
  all_goals first
    | exact absurd e1 (snoc_ne_nil _ _)
    | exact absurd e1.symm (snoc_ne_nil _ _)
    | exact absurd e2 (snoc_ne_nil _ _)
    | exact absurd e2.symm (snoc_ne_nil _ _)
    | exact absurd e3 (snoc_ne_nil _ _)
    | exact absurd e3.symm (snoc_ne_nil _ _)
    | skip
  · obtain ⟨g1, g2⟩ := List.append_inj' e1 rfl
    simp only [List.cons.injEq, and_true] at g2
    subst e0 g1 g2 e2 e3
    rfl
  · obtain ⟨g1, g2⟩ := List.append_inj' e2 rfl
    simp only [List.cons.injEq, and_true] at g2
    obtain ⟨k1, k2⟩ := List.append_inj' e0 (by simp [c1, d1])
    have k3 := List.reverse_injective k2
    subst g1 g2 k1 k3 e3
    rfl
  · obtain ⟨g1, g2⟩ := List.append_inj' e3 rfl
    simp only [List.cons.injEq, and_true] at g2
    obtain ⟨k0, k2⟩ := List.append_inj' e0 (by simp [c2, d2])
    obtain ⟨k1, k4⟩ := List.append_inj' k0 (by simp [c1, d1])
    have k3 := List.reverse_injective k2
    have k5 := List.reverse_injective k4
    subst g1 g2 k1 k3 k5
    rfl
  · obtain ⟨j0, j1⟩ := List.append_inj' e0 rfl
    simp only [List.cons.injEq, and_true] at j1
    obtain ⟨j2, j3⟩ := List.append_inj' j0 (by simp [c3, d3])
    obtain ⟨k0, k2⟩ := List.append_inj' j2 (by simp [c2, d2])
    obtain ⟨k1, k4⟩ := List.append_inj' k0 (by simp [c1, d1])
    have k3 := List.reverse_injective k2
    have k5 := List.reverse_injective k4
    have k6 := List.reverse_injective j3
    subst j1 k1 k3 k5 k6
    rfl

/-! ## The engine returns to its initial state -/

theorem conserving_finite (L : List Ball) : {s : Sequences | s.all.Perm L}.Finite := by
  let A : Finset (List Ball) := L.permutations.toFinset.biUnion (fun p => p.sublists.toFinset)
  let B : Finset Sequences :=
    (A ×ˢ A ×ˢ A ×ˢ A).image (fun q => ⟨q.1, q.2.1, q.2.2.1, q.2.2.2⟩)
  apply Set.Finite.subset B.finite_toSet
  intro s hs
  have hA : ∀ l : List Ball, l.Sublist s.all → l ∈ A := by
    intro l hl
    simp only [A, Finset.mem_biUnion, List.mem_toFinset, List.mem_permutations,
      List.mem_sublists]
    exact ⟨s.all, hs, hl⟩
  have h0 : s.Main.Sublist s.all := by
    unfold Sequences.all
    rw [List.append_assoc, List.append_assoc]
    exact List.sublist_append_left _ _
  have h1 : s.Min.Sublist s.all := by
    unfold Sequences.all
    rw [List.append_assoc, List.append_assoc]
    exact (List.sublist_append_left _ _).trans (List.sublist_append_right _ _)
  have h2 : s.FiveMin.Sublist s.all := by
    unfold Sequences.all
    exact (List.sublist_append_right _ _).trans (List.sublist_append_left _ _)
  have h3 : s.Hour.Sublist s.all := by
    unfold Sequences.all
    exact List.sublist_append_right _ _
  simp only [B, Finset.coe_image, Set.mem_image, Finset.mem_coe, Finset.mem_product]
  exact ⟨(s.Main, s.Min, s.FiveMin, s.Hour), ⟨hA _ h0, hA _ h1, hA _ h2, hA _ h3⟩, rfl⟩

theorem simulate_peel (N : Nat) (hN : 27 ≤ N) (d : Nat) :
    ∀ a : Nat, simulate (a + d) (initialSequences N) = simulate a (initialSequences N) →
      simulate d (initialSequences N) = some (initialSequences N) := by
  intro a
  induction a with
  | zero =>
    intro h
    rw [Nat.zero_add] at h
    rw [h]
    rfl
  | succ a ih =>
    intro h
    apply ih
    obtain ⟨x, hx, -⟩ := simulate_inv N hN (a + d)
    obtain ⟨y, hy, -⟩ := simulate_inv N hN a
    obtain ⟨z, hz, -⟩ := simulate_inv N hN (a + 1)
    have e1 : simulate (a + 1 + d) (initialSequences N) = simulateOneMinute x := by
      rw [show a + 1 + d = (a + d) + 1 by omega, simulate_succ, hx]
      rfl
    have e2 : simulate (a + 1) (initialSequences N) = simulateOneMinute y := by
      rw [simulate_succ, hy]
      rfl
    rw [e1, e2] at h
    rw [e2] at hz
    rw [hz] at h
    rw [hx, hy, simulateOneMinute_injective x y z h hz]

theorem exists_return (N : Nat) (hN : 27 ≤ N) :
    ∃ M, 1 ≤ M ∧ simulate M (initialSequences N) = some (initialSequences N) := by
  have hfin : (some '' {s : Sequences | s.all.Perm (ascending N)}).Finite :=
    (conserving_finite (ascending N)).image _
  have hmem : ∀ M, simulate M (initialSequences N)
      ∈ some '' {s : Sequences | s.all.Perm (ascending N)} := by
    intro M
    obtain ⟨s, hs, hp, -⟩ := simulate_inv N hN M
    exact ⟨s, hp, hs.symm⟩
  obtain ⟨a, b, hab, heq⟩ := Set.Finite.exists_lt_map_eq_of_forall_mem hmem hfin
  refine ⟨b - a, by omega, simulate_peel N hN (b - a) a ?_⟩
  rw [show a + (b - a) = b by omega]
  exact heq.symm

/-! ## The engine does not look at the balls -/

theorem simulateOneMinute_map (f : Ball → Ball) (s : Sequences) :
    simulateOneMinute (s.map f) = (simulateOneMinute s).map (Sequences.map f) := by
  cases hm : s.Main with
  | nil =>
    rw [simulateOneMinute_empty s hm, simulateOneMinute_empty (s.map f) (by simp [Sequences.map, hm])]
    rfl
  | cons b r =>
    have hm2 : (s.map f).Main = f b :: r.map f := by simp [Sequences.map, hm]
    have l1 : (s.map f).Min.length = s.Min.length := by simp [Sequences.map]
    have l2 : (s.map f).FiveMin.length = s.FiveMin.length := by simp [Sequences.map]
    have l3 : (s.map f).Hour.length = s.Hour.length := by simp [Sequences.map]
    by_cases c1 : s.Min.length = 4
    · by_cases c2 : s.FiveMin.length = 11
      · by_cases c3 : s.Hour.length = 11
        · rw [simulateOneMinute_dump3 s b r hm c1 c2 c3,
            simulateOneMinute_dump3 (s.map f) _ _ hm2 (l1.trans c1) (l2.trans c2) (l3.trans c3)]
          simp [Sequences.map]
        · rw [simulateOneMinute_dump2 s b r hm c1 c2 c3,
            simulateOneMinute_dump2 (s.map f) _ _ hm2 (l1.trans c1) (l2.trans c2)
              (by rw [l3]; exact c3)]
          simp [Sequences.map]
      · rw [simulateOneMinute_dump1 s b r hm c1 c2,
          simulateOneMinute_dump1 (s.map f) _ _ hm2 (l1.trans c1) (by rw [l2]; exact c2)]
        simp [Sequences.map]
    · rw [simulateOneMinute_tick s b r hm c1,
        simulateOneMinute_tick (s.map f) _ _ hm2 (by rw [l1]; exact c1)]
      simp [Sequences.map]

theorem simulate_map (f : Ball → Ball) (M : Nat) :
    ∀ s : Sequences, simulate M (s.map f) = (simulate M s).map (Sequences.map f) := by
  induction M with
  | zero => intro s; rfl
  | succ M ih =>
    intro s
    rw [simulate, simulate, simulateOneMinute_map]
    cases simulateOneMinute s with
    | none => rfl
    | some t => exact ih t

theorem ascending_map_ballAt (l : List Ball) :
    (ascending l.length).map (ballAt l) = l := by
  apply List.ext_getElem
  · simp [ascending]
  · intro i h1 h2
    simp only [ascending, List.getElem_map, List.getElem_range', ballAt]
    have : ((((1 + 1 * i : Nat) : Int)).toNat - 1) = i := by
      rw [Int.toNat_ofNat]; omega
    rw [this, List.getD_eq_getElem _ _ h2]

theorem afterHalfDays_length (p : List Ball) (k : Nat) :
    (afterHalfDays p k).length = p.length := by
  cases k with
  | zero => simp [afterHalfDays, ascending]
  | succ k => simp [afterHalfDays]

theorem simulate_halfDays (N : Nat) (p : List Ball) (hp : p.length = N)
    (h : simulate 720 (initialSequences N) = some ⟨p, [], [], []⟩) (k : Nat) :
    simulate (720 * k) (initialSequences N) = some ⟨afterHalfDays p k, [], [], []⟩ := by
  induction k with
  | zero =>
    simp [simulate, afterHalfDays, initialSequences, fillSequencialArray_eq, hp]
  | succ k ih =>
    rw [Nat.mul_succ, simulate_add, ih]
    simp only [Option.some_bind]
    have e : (⟨afterHalfDays p k, [], [], []⟩ : Sequences)
        = (initialSequences N).map (ballAt (afterHalfDays p k)) := by
      have := ascending_map_ballAt (afterHalfDays p k)
      rw [afterHalfDays_length, hp] at this
      simp [Sequences.map, initialSequences, fillSequencialArray_eq, this]
    rw [e, simulate_map, h]
    simp [Sequences.map, afterHalfDays]

set_option maxRecDepth 100000 in
theorem simulate_halfDay27 :
    simulate 720 (initialSequences 27) = some ⟨halfDay27, [], [], []⟩ := by
  decide!

/-! ## The driving loop -/

theorem wrapInt64_eq (x : Int) (h0 : 0 ≤ x) (h1 : x < 9223372036854775808) :
    wrapInt64 x = x := by
  unfold wrapInt64
  omega

theorem simulate_succ_some (j : Nat) (s t : Sequences) (h : simulate (j + 1) s = some t) :
    ∃ s1, simulateOneMinute s = some s1 ∧ simulate j s1 = some t := by
  rw [simulate] at h
  cases h1 : simulateOneMinute s with
  | none => rw [h1] at h; cases h
  | some s1 => rw [h1] at h; exact ⟨s1, rfl, h⟩

theorem mainLoop_mode1_exact (N : Nat) (X : Int) :
    ∀ (j : Nat) (s t : Sequences) (c : Int), 0 ≤ c → c + j + 1 < 9223372036854775808 →
      (∀ i, i < j → ∃ u, simulate (i + 1) s = some u ∧ cycleComplete N u = false) →
      simulate (j + 1) s = some t → cycleComplete N t = true →
      ∀ fuel, mainLoop N X 1 fuel s c
        = if j + 1 ≤ fuel then .finished t (c + j + 1) else .running := by
  intro j
  induction j with
  | zero =>
    intro s t c h0 h1 _ hs ht fuel
    cases fuel with
    | zero => rfl
    | succ fuel =>
      obtain ⟨s1, e1, e2⟩ := simulate_succ_some 0 s t hs
      cases e2
      rw [mainLoop, e1]
      simp only [wrapInt64_eq (c + 1) (by omega) (by omega), ht]
      simp
  | succ j ih =>
    intro s t c h0 h1 hno hs ht fuel
    cases fuel with
    | zero => rfl
    | succ fuel =>
      obtain ⟨s1, e1, e2⟩ := simulate_succ_some (j + 1) s t hs
      obtain ⟨u, hu, hcu⟩ := hno 0 (by omega)
      obtain ⟨u1, f1, f2⟩ := simulate_succ_some 0 s u hu
      cases f2
      rw [e1] at f1
      cases f1
      rw [mainLoop, e1]
      simp only [wrapInt64_eq (c + 1) (by omega) (by omega), hcu]
      have hrec := ih s1 t (c + 1) (by omega) (by push_cast at h1 ⊢; omega)
        (fun i hi => by
          obtain ⟨v, hv, hcv⟩ := hno (i + 1) (by omega)
          obtain ⟨v1, g1, g2⟩ := simulate_succ_some (i + 1) s v hv
          rw [e1] at g1
          cases g1
          exact ⟨v, g2, hcv⟩) e2 ht fuel
      simp only [show ¬ ((1 : Int) = 2 ∧ c + 1 ≥ X) from fun h => absurd h.1 (by decide),
        if_false, Bool.false_eq_true, and_false]
      rw [hrec]
      by_cases hf : j + 1 ≤ fuel
      · rw [if_pos hf, if_pos (by omega)]
        push_cast
        congr 1
        omega
      · rw [if_neg hf, if_neg (by omega)]

theorem mainLoop_mode1_stops (N : Nat) (X : Int) :
    ∀ (j : Nat) (s t : Sequences) (c : Int),
      simulate (j + 1) s = some t → cycleComplete N t = true →
      ∃ k u m, k ≤ j ∧ simulate (k + 1) s = some u ∧ cycleComplete N u = true ∧
        mainLoop N X 1 (k + 1) s c = .finished u m := by
  intro j
  induction j with
  | zero =>
    intro s t c hs ht
    obtain ⟨s1, e1, e2⟩ := simulate_succ_some 0 s t hs
    cases e2
    refine ⟨0, _, wrapInt64 (c + 1), le_refl _, hs, ht, ?_⟩
    rw [mainLoop, e1]
    simp [ht]
  | succ j ih =>
    intro s t c hs ht
    obtain ⟨s1, e1, e2⟩ := simulate_succ_some (j + 1) s t hs
    by_cases hc : cycleComplete N s1 = true
    · refine ⟨0, s1, wrapInt64 (c + 1), Nat.zero_le _, ?_, hc, ?_⟩
      · rw [simulate, e1]; rfl
      · rw [mainLoop, e1]
        simp [hc]
    · obtain ⟨k, u, m, hk, hu, hcu, hl⟩ := ih s1 t (wrapInt64 (c + 1)) e2 ht
      refine ⟨k + 1, u, m, by omega, ?_, hcu, ?_⟩
      · rw [simulate, e1]; exact hu
      · rw [mainLoop, e1]
        simp only [hc, and_false, if_false]
        simp only [show ¬ ((1 : Int) = 2 ∧ wrapInt64 (c + 1) ≥ X) from
          fun h => absurd h.1 (by decide), if_false]
        exact hl

theorem cycleComplete_false_of_off_half_day (N : Nat) (hN : 27 ≤ N) (M : Nat) (s : Sequences)
    (hs : simulate M (initialSequences N) = some s) (hM : M % 720 ≠ 0) :
    cycleComplete N s = false := by
  obtain ⟨hp, h1, h2, h3⟩ := reachable_inv N hN M s hs
  have hlen := hp.length_eq
  rw [ascending_length] at hlen
  simp only [Sequences.all, List.length_append] at hlen
  have d1 : M / 5 / 12 = M / 60 := Nat.div_div_eq_div_mul M 5 12
  have d2 : M / 60 / 12 = M / 720 := Nat.div_div_eq_div_mul M 60 12
  have hne : s.Main.length ≠ N := by omega
  simp [cycleComplete, hne]

theorem mainRun_mode1 (N : Nat) (hN : 27 ≤ N) (p : List Ball) (hp : p.length = N)
    (h : simulate 720 (initialSequences N) = some ⟨p, [], [], []⟩) (K : Nat) (hK : 1 ≤ K)
    (hb : 720 * K < 9223372036854775808)
    (hno : ∀ k, 1 ≤ k → k < K → sequenceIsOrdered (afterHalfDays p k) = false)
    (hret : afterHalfDays p K = ascending N) :
    ∀ fuel, mainRun N MaxInt64 1 fuel
      = if 720 * K ≤ fuel then .finished (initialSequences N) ((720 * K : Nat) : Int)
        else .running := by
  intro fuel
  have hinit : (⟨ascending N, [], [], []⟩ : Sequences) = initialSequences N := by
    simp [initialSequences, fillSequencialArray_eq]
  have hend : simulate (720 * K - 1 + 1) (initialSequences N) = some (initialSequences N) := by
    rw [show 720 * K - 1 + 1 = 720 * K by omega, simulate_halfDays N p hp h K, hret, hinit]
  have hcomplete : cycleComplete N (initialSequences N) = true :=
    (cycleComplete_iff N hN 0 _ rfl).mpr rfl
  have hearly : ∀ i, i < 720 * K - 1 →
      ∃ u, simulate (i + 1) (initialSequences N) = some u ∧ cycleComplete N u = false := by
    intro i hi
    obtain ⟨u, hu, -⟩ := simulate_inv N hN (i + 1)
    refine ⟨u, hu, ?_⟩
    by_cases hmod : (i + 1) % 720 = 0
    · have hk : i + 1 = 720 * ((i + 1) / 720) := by omega
      rw [hk, simulate_halfDays N p hp h] at hu
      cases hu
      simp [cycleComplete, hno ((i + 1) / 720) (by omega) (by omega)]
    · exact cycleComplete_false_of_off_half_day N hN (i + 1) u hu hmod
  have := mainLoop_mode1_exact N MaxInt64 (720 * K - 1) (initialSequences N)
    (initialSequences N) 0 (le_refl _) (by omega) hearly hend hcomplete fuel
  rw [mainRun, this, show 720 * K - 1 + 1 = 720 * K by omega]
  by_cases hf : 720 * K ≤ fuel
  · rw [if_pos hf, if_pos hf]
    congr 1
    push_cast
    omega
  · rw [if_neg hf, if_neg hf]

set_option maxRecDepth 100000 in
theorem halfDay27_not_ordered :
    ∀ k, 1 ≤ k → k < 46 → sequenceIsOrdered (afterHalfDays halfDay27 k) = false := by
  decide!

set_option maxRecDepth 100000 in
theorem halfDay27_return : afterHalfDays halfDay27 46 = ascending 27 := by
  decide!

theorem mainRun_27 (fuel : Nat) :
    mainRun 27 MaxInt64 1 fuel
      = if 33120 ≤ fuel then .finished (initialSequences 27) 33120 else .running := by
  have := mainRun_mode1 27 (le_refl _) halfDay27 rfl simulate_halfDay27 46 (by decide)
    (by decide) halfDay27_not_ordered halfDay27_return fuel
  rw [this]
  rfl

theorem mainLoop_mode2_exact (N : Nat) (X : Int) (hX : X < 9223372036854775808) :
    ∀ (j : Nat) (s t : Sequences) (c : Int), 0 ≤ c → c + j + 1 = X →
      simulate (j + 1) s = some t →
      ∀ fuel, mainLoop N X 2 fuel s c = if j + 1 ≤ fuel then .finished t X else .running := by
  intro j
  induction j with
  | zero =>
    intro s t c h0 h1 hs fuel
    cases fuel with
    | zero => rfl
    | succ fuel =>
      obtain ⟨s1, e1, e2⟩ := simulate_succ_some 0 s t hs
      cases e2
      have hc : c + 1 = X := by simpa using h1
      subst hc
      rw [mainLoop, e1]
      simp only [wrapInt64_eq (c + 1) (by omega) (by omega)]
      simp
  | succ j ih =>
    intro s t c h0 h1 hs fuel
    cases fuel with
    | zero => rfl
    | succ fuel =>
      obtain ⟨s1, e1, e2⟩ := simulate_succ_some (j + 1) s t hs
      have hlt : ¬ (c + 1 ≥ X) := by push_cast at h1; omega
      rw [mainLoop, e1]
      simp only [wrapInt64_eq (c + 1) (by push_cast at h1; omega) (by push_cast at h1; omega)]
      simp only [hlt, and_false, if_false,
        show ¬ ((2 : Int) = 1 ∧ cycleComplete N s1 = true) from fun h => absurd h.1 (by decide)]
      rw [ih s1 t (c + 1) (by omega) (by push_cast at h1 ⊢; omega) e2 fuel]
      by_cases hf : j + 1 ≤ fuel
      · rw [if_pos hf, if_pos (by omega)]
      · rw [if_neg hf, if_neg (by omega)]

theorem mainRun_mode2 (N : Nat) (hN : 27 ≤ N) (M : Nat) (hM : 1 ≤ M)
    (hb : (M : Int) ≤ MaxInt64) (fuel : Nat) :
    ∃ t, simulate M (initialSequences N) = some t ∧
      mainRun N (M : Int) 2 fuel = if M ≤ fuel then .finished t (M : Int) else .running := by
  obtain ⟨t, ht, -⟩ := simulate_inv N hN M
  refine ⟨t, ht, ?_⟩
  obtain ⟨j, rfl⟩ : ∃ j, M = j + 1 := ⟨M - 1, by omega⟩
  rw [MaxInt64] at hb
  exact mainLoop_mode2_exact N _ (by omega) j (initialSequences N) t 0 (le_refl _)
    (by push_cast; omega) ht fuel

theorem initialSequences_eq (N : Nat) : initialSequences N = ⟨ascending N, [], [], []⟩ := by
  simp [initialSequences, fillSequencialArray_eq]

/-! ## The claims -/

/-- C1, conservation: for every ball count `N` with `27 ≤ N ≤ 127` and every number of
minutes `M`, applying `simulateOneMinute` `M` times to the initial state (Main = `[1..N]`,
the other tracks empty) yields a state in which the concatenation of Main, Min, FiveMin and
Hour is a permutation of `[1..N]`: every ball from 1 to `N` occurs exactly once across the
four tracks and nothing else occurs. -/
theorem conservation (N : Nat) (hlo : 27 ≤ N) (hhi : N ≤ 127) (M : Nat) :
    initialSequences N = ⟨ascending N, [], [], []⟩ ∧
    ∃ s, simulate M (initialSequences N) = some s ∧
      (s.Main ++ s.Min ++ s.FiveMin ++ s.Hour).Perm (ascending N) ∧
      ∀ b : Ball, (s.Main ++ s.Min ++ s.FiveMin ++ s.Hour).count b
        = if 1 ≤ b ∧ b ≤ (N : Int) then 1 else 0 := by
  have _ := hhi
  refine ⟨initialSequences_eq N, ?_⟩
  obtain ⟨s, hs, hp, -⟩ := simulate_inv N hlo M
  refine ⟨s, hs, hp, fun b => ?_⟩
  have := hp.count_eq b
  rw [Sequences.all] at this
  rw [this, ascending_count]

theorem conservation_witness :
    27 ≤ 30 ∧ 30 ≤ 127 ∧ initialSequences 30 = ⟨ascending 30, [], [], []⟩ ∧
    ∃ s, simulate 61 (initialSequences 30) = some s ∧
      (s.Main ++ s.Min ++ s.FiveMin ++ s.Hour).Perm (ascending 30) ∧
      ∀ b : Ball, (s.Main ++ s.Min ++ s.FiveMin ++ s.Hour).count b
        = if 1 ≤ b ∧ b ≤ ((30 : Nat) : Int) then 1 else 0 :=
  ⟨by decide, by decide, conservation 30 (by decide) (by decide) 61⟩

/-- C2, the step never fails: for every `N` with `27 ≤ N ≤ 127` and every `M`, the state
reached after `M` applications of `simulateOneMinute` from the initial state exists (no step
panicked), its Main track is not empty, and the next step returns a state: the read of
`Main[0]` and every index read inside `dump` are in bounds. -/
theorem step_never_fails (N : Nat) (hlo : 27 ≤ N) (hhi : N ≤ 127) (M : Nat) :
    ∃ s, simulate M (initialSequences N) = some s ∧ s.Main ≠ [] ∧
      ∃ t, simulateOneMinute s = some t := by
  have _ := hhi
  obtain ⟨s, hs, -⟩ := simulate_inv N hlo M
  obtain ⟨t, ht, -⟩ := simulate_inv N hlo (M + 1)
  refine ⟨s, hs, main_ne_nil N hlo M s hs, t, ?_⟩
  rw [simulate_succ, hs] at ht
  exact ht

theorem step_never_fails_witness :
    27 ≤ 27 ∧ 27 ≤ 127 ∧ ∃ s, simulate 719 (initialSequences 27) = some s ∧ s.Main ≠ [] ∧
      ∃ t, simulateOneMinute s = some t :=
  ⟨by decide, by decide, step_never_fails 27 (by decide) (by decide) 719⟩

/-- C3, capacity bound: for every `N` with `27 ≤ N ≤ 127` and every `M`, in the state
observed after `M` complete applications of `simulateOneMinute` from the initial state,
`len(Min) ≤ 5`, `len(FiveMin) ≤ 12` and `len(Hour) ≤ 12`. -/
theorem capacity_bound (N : Nat) (hlo : 27 ≤ N) (hhi : N ≤ 127) (M : Nat) :
    ∃ s, simulate M (initialSequences N) = some s ∧ s.Min.length ≤ MIN_SIZE ∧
      s.FiveMin.length ≤ FIVEMIN_SIZE ∧ s.Hour.length ≤ HOUR_SIZE := by
  have _ := hhi
  obtain ⟨s, hs, -, h1, h2, h3⟩ := simulate_inv N hlo M
  refine ⟨s, hs, ?_, ?_, ?_⟩
  · rw [h1, MIN_SIZE]; omega
  · rw [h2, FIVEMIN_SIZE]; omega
  · rw [h3, HOUR_SIZE]; omega

theorem capacity_bound_witness :
    27 ≤ 127 ∧ 127 ≤ 127 ∧ ∃ s, simulate 1000 (initialSequences 127) = some s ∧
      s.Min.length ≤ MIN_SIZE ∧ s.FiveMin.length ≤ FIVEMIN_SIZE ∧ s.Hour.length ≤ HOUR_SIZE :=
  ⟨by decide, by decide, capacity_bound 127 (by decide) (by decide) 1000⟩

/-- C4, the dump rule with three distinct tracks: when the source track holds `h ++ [t]`
and source, destination and main pool are three different tracks, `dump` returns a state in
which the main pool is its old content followed by `reverse h`, the destination is its old
content followed by `t`, the source is empty and the remaining track is unchanged. -/
theorem dump_three_tracks (src dst mn : Track) (h1 : src ≠ dst) (h2 : src ≠ mn)
    (h3 : dst ≠ mn) (s : Sequences) (h : List Ball) (t : Ball) (hs : s.load src = h ++ [t]) :
    ∃ s', dump src dst mn s = some s' ∧ s'.load mn = s.load mn ++ h.reverse ∧
      s'.load dst = s.load dst ++ [t] ∧ s'.load src = [] ∧
      ∀ p, p ≠ src → p ≠ dst → p ≠ mn → s'.load p = s.load p := by
  refine ⟨_, dump_eq src dst mn h2 s h t hs, ?_, ?_, ?_, ?_⟩
  · rw [load_store_ne _ _ _ _ (Ne.symm h2), load_store_ne _ _ _ _ (Ne.symm h3),
      load_store_same]
  · rw [load_store_ne _ _ _ _ (Ne.symm h1), load_store_same, load_store_ne _ _ _ _ h3]
  · rw [load_store_same]
  · intro p p1 p2 p3
    rw [load_store_ne _ _ _ _ p1, load_store_ne _ _ _ _ p2, load_store_ne _ _ _ _ p3]

theorem dump_three_tracks_witness :
    Track.Min ≠ Track.FiveMin ∧ Track.Min ≠ Track.Main ∧ Track.FiveMin ≠ Track.Main ∧
    (⟨[6, 7], [1, 2, 3, 4, 5], [10], [11]⟩ : Sequences).load .Min = [1, 2, 3, 4] ++ [5] ∧
    ∃ s', dump .Min .FiveMin .Main ⟨[6, 7], [1, 2, 3, 4, 5], [10], [11]⟩ = some s' ∧
      s'.load .Main
        = (⟨[6, 7], [1, 2, 3, 4, 5], [10], [11]⟩ : Sequences).load .Main
          ++ [1, 2, 3, 4].reverse ∧
      s'.load .FiveMin
        = (⟨[6, 7], [1, 2, 3, 4, 5], [10], [11]⟩ : Sequences).load .FiveMin ++ [5] ∧
      s'.load .Min = [] ∧
      ∀ p, p ≠ Track.Min → p ≠ Track.FiveMin → p ≠ Track.Main →
        s'.load p = (⟨[6, 7], [1, 2, 3, 4, 5], [10], [11]⟩ : Sequences).load p :=
  ⟨by decide, by decide, by decide, rfl,
    dump_three_tracks .Min .FiveMin .Main (by decide) (by decide) (by decide)
      ⟨[6, 7], [1, 2, 3, 4, 5], [10], [11]⟩ [1, 2, 3, 4] 5 rfl⟩

/-- C5, the dump with the main pool as destination (the Hour case, where the same track is
passed as next track and as main pool): when the source holds `h ++ [t]` and is not the
main pool, `dump` returns a state in which the main pool is its old content followed by
`reverse h` and then `t`, the source is empty and the other tracks are unchanged. -/
theorem dump_into_main (src mn : Track) (hne : src ≠ mn) (s : Sequences) (h : List Ball)
    (t : Ball) (hs : s.load src = h ++ [t]) :
    ∃ s', dump src mn mn s = some s' ∧ s'.load mn = s.load mn ++ h.reverse ++ [t] ∧
      s'.load src = [] ∧ ∀ p, p ≠ src → p ≠ mn → s'.load p = s.load p := by
  refine ⟨_, dump_eq src mn mn hne s h t hs, ?_, ?_, ?_⟩
  · rw [load_store_ne _ _ _ _ (Ne.symm hne), load_store_same, load_store_same]
  · rw [load_store_same]
  · intro p p1 p2
    rw [load_store_ne _ _ _ _ p1, load_store_ne _ _ _ _ p2, load_store_ne _ _ _ _ p2]

theorem dump_into_main_witness :
    Track.Hour ≠ Track.Main ∧
    (⟨[20, 21], [], [], [1, 2, 3, 4, 5, 6, 7, 8, 9, 10, 11, 12]⟩ : Sequences).load .Hour
      = [1, 2, 3, 4, 5, 6, 7, 8, 9, 10, 11] ++ [12] ∧
    ∃ s', dump .Hour .Main .Main ⟨[20, 21], [], [], [1, 2, 3, 4, 5, 6, 7, 8, 9, 10, 11, 12]⟩
        = some s' ∧
      s'.load .Main
        = (⟨[20, 21], [], [], [1, 2, 3, 4, 5, 6, 7, 8, 9, 10, 11, 12]⟩ : Sequences).load .Main
          ++ [1, 2, 3, 4, 5, 6, 7, 8, 9, 10, 11].reverse ++ [12] ∧
      s'.load .Hour = [] ∧
      ∀ p, p ≠ Track.Hour → p ≠ Track.Main →
        s'.load p
          = (⟨[20, 21], [], [], [1, 2, 3, 4, 5, 6, 7, 8, 9, 10, 11, 12]⟩ : Sequences).load p :=
  ⟨by decide, rfl,
    dump_into_main .Hour .Main (by decide)
      ⟨[20, 21], [], [], [1, 2, 3, 4, 5, 6, 7, 8, 9, 10, 11, 12]⟩
      [1, 2, 3, 4, 5, 6, 7, 8, 9, 10, 11] 12 rfl⟩

/-- C6, the full cascade in one step: for every state with Main = `b :: r`, `len(Min) = 4`,
`len(FiveMin) = 11` and `len(Hour) = 11`, one application of `simulateOneMinute` returns the
state with Min, FiveMin and Hour empty and
Main = `r ++ reverse Min ++ reverse FiveMin ++ reverse Hour ++ [b]`, the tracks on the right
being those before the step. -/
theorem full_cascade (s : Sequences) (b : Ball) (r : List Ball) (hm : s.Main = b :: r)
    (h1 : s.Min.length = 4) (h2 : s.FiveMin.length = 11) (h3 : s.Hour.length = 11) :
    simulateOneMinute s
      = some ⟨r ++ s.Min.reverse ++ s.FiveMin.reverse ++ s.Hour.reverse ++ [b], [], [], []⟩ :=
  simulateOneMinute_dump3 s b r hm h1 h2 h3

theorem full_cascade_witness :
    simulateOneMinute
        ⟨[27, 28], [1, 2, 3, 4], [5, 6, 7, 8, 9, 10, 11, 12, 13, 14, 15],
          [16, 17, 18, 19, 20, 21, 22, 23, 24, 25, 26]⟩
      = some ⟨[28] ++ [1, 2, 3, 4].reverse ++ [5, 6, 7, 8, 9, 10, 11, 12, 13, 14, 15].reverse
          ++ [16, 17, 18, 19, 20, 21, 22, 23, 24, 25, 26].reverse ++ [27], [], [], []⟩ :=
  full_cascade
    ⟨[27, 28], [1, 2, 3, 4], [5, 6, 7, 8, 9, 10, 11, 12, 13, 14, 15],
      [16, 17, 18, 19, 20, 21, 22, 23, 24, 25, 26]⟩ 27 [28] rfl rfl rfl rfl

/-- C7, point-in-time mode with a request of 0 minutes: for `N = 30` and
`minutesToSimulate = 0` the driving loop of `main` in mode 2 stops after ONE application of
`simulateOneMinute`, with `minutesSimulated = 1` and the snapshot Main = `[2..30]`,
Min = `[1]`, whereas zero applications leave the initial state Main = `[1..30]` with the
other tracks empty; the snapshot is not the state after the requested number of minutes. -/
theorem mode2_zero_minutes_runs_one_step :
    (∀ fuel, mainRun 30 0 2 (fuel + 1)
      = .finished ⟨[2, 3, 4, 5, 6, 7, 8, 9, 10, 11, 12, 13, 14, 15, 16, 17, 18, 19, 20, 21, 22, 23, 24, 25, 26, 27, 28, 29, 30], [1], [], []⟩ 1) ∧
    simulate 0 (initialSequences 30) = some ⟨[1, 2, 3, 4, 5, 6, 7, 8, 9, 10, 11, 12, 13, 14, 15, 16, 17, 18, 19, 20, 21, 22, 23, 24, 25, 26, 27, 28, 29, 30], [], [], []⟩ ∧
    simulate 1 (initialSequences 30) = some ⟨[2, 3, 4, 5, 6, 7, 8, 9, 10, 11, 12, 13, 14, 15, 16, 17, 18, 19, 20, 21, 22, 23, 24, 25, 26, 27, 28, 29, 30], [1], [], []⟩ := by
  refine ⟨fun fuel => ?_, by decide, by decide⟩
  have h : simulateOneMinute (initialSequences 30) = some ⟨[2, 3, 4, 5, 6, 7, 8, 9, 10, 11, 12, 13, 14, 15, 16, 17, 18, 19, 20, 21, 22, 23, 24, 25, 26, 27, 28, 29, 30], [1], [], []⟩ := by
    decide
  rw [mainRun, mainLoop, h]
  rfl

/-- C8, the cycle test detects exactly a return to the initial configuration: for every
`N` with `27 ≤ N ≤ 127` and every state `s` reached from the initial state by `M`
applications of `simulateOneMinute`, the mode-1 end condition
`len(Main) == N && sequenceIsOrdered(Main)` holds if and only if Main = `[1..N]` and Min,
FiveMin and Hour are empty, that is, if and only if `s` is the initial state. -/
theorem cycle_test_iff_initial (N : Nat) (hlo : 27 ≤ N) (hhi : N ≤ 127) (M : Nat)
    (s : Sequences) (hs : simulate M (initialSequences N) = some s) :
    ((s.Main.length = N ∧ sequenceIsOrdered s.Main = true) ↔
      (s.Main = ascending N ∧ s.Min = [] ∧ s.FiveMin = [] ∧ s.Hour = [])) ∧
    ((s.Main.length = N ∧ sequenceIsOrdered s.Main = true) ↔ s = initialSequences N) := by
  have _ := hhi
  have key : (s.Main.length = N ∧ sequenceIsOrdered s.Main = true) ↔ s = initialSequences N := by
    rw [← cycleComplete_iff N hlo M s hs]
    simp [cycleComplete]
  refine ⟨?_, key⟩
  rw [key, initialSequences_eq]
  obtain ⟨m, mi, f, h⟩ := s
  simp

theorem cycle_test_iff_initial_witness :
    27 ≤ 27 ∧ 27 ≤ 127 ∧
    simulate 720 (initialSequences 27) = some ⟨halfDay27, [], [], []⟩ ∧
    (((⟨halfDay27, [], [], []⟩ : Sequences).Main.length = 27 ∧
        sequenceIsOrdered (⟨halfDay27, [], [], []⟩ : Sequences).Main = true) ↔
      ((⟨halfDay27, [], [], []⟩ : Sequences).Main = ascending 27 ∧
        (⟨halfDay27, [], [], []⟩ : Sequences).Min = [] ∧
        (⟨halfDay27, [], [], []⟩ : Sequences).FiveMin = [] ∧
        (⟨halfDay27, [], [], []⟩ : Sequences).Hour = [])) ∧
    (((⟨halfDay27, [], [], []⟩ : Sequences).Main.length = 27 ∧
        sequenceIsOrdered (⟨halfDay27, [], [], []⟩ : Sequences).Main = true) ↔
      (⟨halfDay27, [], [], []⟩ : Sequences) = initialSequences 27) :=
  ⟨by decide, by decide, simulate_halfDay27,
    cycle_test_iff_initial 27 (by decide) (by decide) 720 ⟨halfDay27, [], [], []⟩
      simulate_halfDay27⟩

/-- C9, a cycle always exists and cycle-length mode terminates: for every `N` with
`27 ≤ N ≤ 127` there is some `M ≥ 1` such that applying `simulateOneMinute` `M` times to the
initial state gives back the initial state, and the mode-1 driving loop of `main` is left
after finitely many iterations, in the initial state. -/
theorem cycle_exists (N : Nat) (hlo : 27 ≤ N) (hhi : N ≤ 127) :
    (∃ M, 1 ≤ M ∧ simulate M (initialSequences N) = some (initialSequences N)) ∧
    (∃ fuel minutesSimulated,
      mainRun N MaxInt64 1 fuel = .finished (initialSequences N) minutesSimulated) := by
  have _ := hhi
  obtain ⟨M, hM, hret⟩ := exists_return N hlo
  refine ⟨⟨M, hM, hret⟩, ?_⟩
  obtain ⟨j, rfl⟩ : ∃ j, M = j + 1 := ⟨M - 1, by omega⟩
  have hc : cycleComplete N (initialSequences N) = true :=
    (cycleComplete_iff N hlo 0 _ rfl).mpr rfl
  obtain ⟨k, u, m, -, hu, hcu, hl⟩ :=
    mainLoop_mode1_stops N MaxInt64 j (initialSequences N) (initialSequences N) 0 hret hc
  have : u = initialSequences N := (cycleComplete_iff N hlo (k + 1) u hu).mp hcu
  subst this
  exact ⟨k + 1, m, hl⟩

theorem cycle_exists_witness :
    27 ≤ 27 ∧ 27 ≤ 127 ∧
    (∃ M, 1 ≤ M ∧ simulate M (initialSequences 27) = some (initialSequences 27)) ∧
    (∃ fuel minutesSimulated,
      mainRun 27 MaxInt64 1 fuel = .finished (initialSequences 27) minutesSimulated) :=
  ⟨by decide, by decide, cycle_exists 27 (by decide) (by decide)⟩

/-- C10 as stated fails: with 27 balls, no run of cycle-length mode is left with a minute
count whose day figure `minutesSimulated/60/24` is 15. -/
theorem cycle27_is_not_15_days :
    ¬ ∃ fuel s minutesSimulated,
      mainRun 27 MaxInt64 1 fuel = .finished s minutesSimulated ∧ days minutesSimulated = 15 := by
  rintro ⟨fuel, s, m, h, hd⟩
  rw [mainRun_27] at h
  by_cases hf : 33120 ≤ fuel
  · rw [if_pos hf] at h
    cases h
    revert hd
    decide
  · rw [if_neg hf] at h
    cases h

/-- C10, amended: with `N = 27`, cycle-length mode steps until the first `M ≥ 1` at which
`len(Main) == 27` and Main is strictly ascending; this happens after exactly 33120 minutes
(the loop is still running after fewer iterations and is left, in the initial state, with
`minutesSimulated = 33120`), and the day figure reported is `33120/60/24 = 23` days. -/
theorem cycle27_is_23_days :
    (∀ fuel, mainRun 27 MaxInt64 1 fuel
      = if 33120 ≤ fuel then .finished (initialSequences 27) 33120 else .running) ∧
    days 33120 = 23 :=
  ⟨mainRun_27, by decide⟩

/-! ## Thirty balls, the first dump, early returns, days -/

set_option maxRecDepth 100000 in
theorem simulate_halfDay30 :
    simulate 720 (initialSequences 30) = some ⟨halfDay30, [], [], []⟩ := by
  decide!

set_option maxRecDepth 100000 in
theorem halfDay30_not_ordered :
    ∀ k, 1 ≤ k → k < 30 → sequenceIsOrdered (afterHalfDays halfDay30 k) = false := by
  decide!

set_option maxRecDepth 100000 in
theorem halfDay30_return : afterHalfDays halfDay30 30 = ascending 30 := by
  decide!

theorem mainRun_30 (fuel : Nat) :
    mainRun 30 MaxInt64 1 fuel
      = if 21600 ≤ fuel then .finished (initialSequences 30) 21600 else .running := by
  have := mainRun_mode1 30 (by decide) halfDay30 rfl simulate_halfDay30 30 (by decide)
    (by decide) halfDay30_not_ordered halfDay30_return fuel
  rw [this]
  rfl

theorem ascending_five (N : Nat) (hN : 5 ≤ N) :
    ascending N
      = 1 :: 2 :: 3 :: 4 :: 5 :: (List.range' 6 (N - 5)).map (fun i : Nat => (i : Int)) := by
  obtain ⟨k, rfl⟩ : ∃ k, N = k + 5 := ⟨N - 5, by omega⟩
  simp [ascending, List.range'_succ]

theorem simulate_five (a1 a2 a3 a4 a5 : Ball) (r : List Ball) :
    simulate 5 ⟨a1 :: a2 :: a3 :: a4 :: a5 :: r, [], [], []⟩
      = some ⟨r ++ [a4, a3, a2, a1], [], [a5], []⟩ := by
  rw [simulate, simulateOneMinute_tick _ a1 _ rfl (by simp)]
  simp only
  rw [simulate, simulateOneMinute_tick _ a2 _ rfl (by simp)]
  simp only
  rw [simulate, simulateOneMinute_tick _ a3 _ rfl (by simp)]
  simp only
  rw [simulate, simulateOneMinute_tick _ a4 _ rfl (by simp)]
  simp only
  rw [simulate, simulateOneMinute_dump1 _ a5 _ rfl (by simp) (by simp)]
  rfl

theorem not_initial_off_half_day (N : Nat) (hN : 27 ≤ N) (M : Nat) (s : Sequences)
    (hs : simulate M (initialSequences N) = some s) (hM : M % 720 ≠ 0) :
    s ≠ initialSequences N := by
  intro h
  have h1 := (cycleComplete_iff N hN M s hs).mpr h
  rw [cycleComplete_false_of_off_half_day N hN M s hs hM] at h1
  cases h1

theorem days_eq (m : Int) (h : 0 ≤ m) : days m = m / 1440 := by
  unfold days
  rw [Int.tdiv_eq_ediv h (by decide), Int.tdiv_eq_ediv (by omega) (by decide)]
  omega

/-- C11 as stated fails: with 30 balls, no run of cycle-length mode is left with a minute
count whose day figure `minutesSimulated/60/24` is 84. -/
theorem cycle30_is_not_84_days :
    ¬ ∃ fuel s minutesSimulated,
      mainRun 30 MaxInt64 1 fuel = .finished s minutesSimulated ∧ days minutesSimulated = 84 := by
  rintro ⟨fuel, s, m, h, hd⟩
  rw [mainRun_30] at h
  by_cases hf : 21600 ≤ fuel
  · rw [if_pos hf] at h
    cases h
    revert hd
    decide
  · rw [if_neg hf] at h
    cases h

/-- C11, amended: with `N = 30`, cycle-length mode steps until the first `M ≥ 1` at which
`len(Main) == 30` and Main is strictly ascending; this happens after exactly 21600 minutes
(the loop is still running after fewer iterations and is left, in the initial state, with
`minutesSimulated = 21600`), and the day figure reported is `21600/60/24 = 15` days. -/
theorem cycle30_is_15_days :
    (∀ fuel, mainRun 30 MaxInt64 1 fuel
      = if 21600 ≤ fuel then .finished (initialSequences 30) 21600 else .running) ∧
    days 21600 = 15 :=
  ⟨mainRun_30, by decide⟩

/-- C12, the first minute-track dump: for every `N` with `27 ≤ N ≤ 127`, after exactly 5
applications of `simulateOneMinute` to the initial state Min and Hour are empty, FiveMin is
`[5]` (the fifth ball added is the carry) and Main is `[6..N] ++ [4, 3, 2, 1]`. -/
theorem first_dump (N : Nat) (hlo : 27 ≤ N) (hhi : N ≤ 127) :
    simulate 5 (initialSequences N)
      = some ⟨(List.range' 6 (N - 5)).map (fun i : Nat => (i : Int)) ++ [4, 3, 2, 1],
          [], [5], []⟩ := by
  have _ := hhi
  rw [initialSequences_eq, ascending_five N (by omega), simulate_five]

theorem first_dump_witness :
    27 ≤ 30 ∧ 30 ≤ 127 ∧
    (List.range' 6 (30 - 5)).map (fun i : Nat => (i : Int)) ++ [4, 3, 2, 1]
      = [6, 7, 8, 9, 10, 11, 12, 13, 14, 15, 16, 17, 18, 19, 20, 21, 22, 23, 24, 25, 26, 27, 28, 29, 30, 4, 3, 2, 1] ∧
    simulate 5 (initialSequences 30)
      = some ⟨(List.range' 6 (30 - 5)).map (fun i : Nat => (i : Int)) ++ [4, 3, 2, 1],
          [], [5], []⟩ :=
  ⟨by decide, by decide, by decide, first_dump 30 (by decide) (by decide)⟩

/-- C13, monotonic progress: for every `N` with `27 ≤ N ≤ 127` and every `M` with
`1 ≤ M < N`, the state obtained by applying `simulateOneMinute` `M` times to the initial
state exists and is not the initial state. -/
theorem monotonic_progress (N : Nat) (hlo : 27 ≤ N) (hhi : N ≤ 127) (M : Nat) (h1 : 1 ≤ M)
    (h2 : M < N) :
    ∃ s, simulate M (initialSequences N) = some s ∧ s ≠ initialSequences N := by
  obtain ⟨s, hs, -⟩ := simulate_inv N hlo M
  exact ⟨s, hs, not_initial_off_half_day N hlo M s hs (by omega)⟩

theorem monotonic_progress_witness :
    27 ≤ 27 ∧ 27 ≤ 127 ∧ 1 ≤ 26 ∧ 26 < 27 ∧
    ∃ s, simulate 26 (initialSequences 27) = some s ∧ s ≠ initialSequences 27 :=
  ⟨by decide, by decide, by decide, by decide,
    monotonic_progress 27 (by decide) (by decide) 26 (by decide) (by decide)⟩

/-- C14, day conversion: for every non-negative minute count `m`, the day figure of
cycle-length mode (two successive truncating integer divisions, by 60 and then by 24) is
the floor of `m / 1440`. -/
theorem days_is_floor_div_1440 (m : Int) (h : 0 ≤ m) :
    days m = m / 1440 ∧ days m = ⌊(m : ℚ) / 1440⌋ := by
  refine ⟨days_eq m h, ?_⟩
  rw [days_eq m h]
  have := Rat.floor_intCast_div_natCast m 1440
  simpa using this.symm

theorem days_is_floor_div_1440_witness :
    (0 : Int) ≤ 33119 ∧ days 33119 = 33119 / 1440 ∧ days 33119 = ⌊((33119 : Int) : ℚ) / 1440⌋ :=
  ⟨by decide, days_is_floor_div_1440 33119 (by decide)⟩

/-! ## Input validation -/

theorem validateIntBetween_none (input : String) (lo hi : Int) (text : String) :
    (validateIntBetween input lo hi text).2 = none ↔
      ∃ n, Atoi input = (n, none) ∧ lo ≤ n ∧ n ≤ hi := by
  unfold validateIntBetween
  rcases h : Atoi input with ⟨number, _ | err⟩
  · simp only [Prod.mk.injEq, and_true, exists_eq_left']
    by_cases hr : number < lo ∨ number > hi
    · rw [if_pos hr]
      constructor
      · intro h1; cases h1
      · rintro ⟨h1, h2⟩; omega
    · rw [if_neg hr]
      constructor
      · intro _; omega
      · intro _; trivial
  · simp

theorem validateIntBetween_fst (input : String) (lo hi : Int) (text : String) :
    (validateIntBetween input lo hi text).1 = (Atoi input).1 := by
  unfold validateIntBetween
  rcases h : Atoi input with ⟨number, _ | err⟩
  · simp only
    by_cases hr : number < lo ∨ number > hi
    · rw [if_pos hr]
    · rw [if_neg hr]
  · rfl

theorem handleUserInput_two (args : List String) (h : args.length = 2) :
    handleUserInput args
      = ((validateIntBetween (args.getD 1 "") 27 127 "number of balls").1, MaxInt64, 1,
          (validateIntBetween (args.getD 1 "") 27 127 "number of balls").2) := by
  unfold handleUserInput
  simp [h, MIN_BALL_COUNT, MAX_BALL_COUNT]

theorem handleUserInput_three_ok (args : List String) (h : args.length = 3)
    (h2 : (validateIntBetween (args.getD 2 "") 0 MaxInt64 "minutes to simulate").2 = none) :
    handleUserInput args
      = ((validateIntBetween (args.getD 1 "") 27 127 "number of balls").1,
          (validateIntBetween (args.getD 2 "") 0 MaxInt64 "minutes to simulate").1, 2,
          (validateIntBetween (args.getD 1 "") 27 127 "number of balls").2) := by
  unfold handleUserInput
  simp only [h, if_true]
  rw [h2]
  simp [MIN_BALL_COUNT, MAX_BALL_COUNT]

theorem handleUserInput_three_err (args : List String) (h : args.length = 3) (e : InputError)
    (h2 : (validateIntBetween (args.getD 2 "") 0 MaxInt64 "minutes to simulate").2 = some e) :
    handleUserInput args
      = (0, (validateIntBetween (args.getD 2 "") 0 MaxInt64 "minutes to simulate").1, 2,
          some e) := by
  unfold handleUserInput
  simp only [h, if_true]
  rw [h2]

theorem handleUserInput_other (args : List String) (h3 : args.length ≠ 3)
    (h2 : args.length ≠ 2) : handleUserInput args = (0, 0, 0, some .argumentCount) := by
  unfold handleUserInput
  simp [h3, h2]

theorem handleUserInput_none_iff (args : List String) :
    (handleUserInput args).2.2.2 = none ↔
      (args.length = 2 ∧ ∃ n, Atoi (args.getD 1 "") = (n, none) ∧ 27 ≤ n ∧ n ≤ 127) ∨
      (args.length = 3 ∧ (∃ k, Atoi (args.getD 2 "") = (k, none) ∧ 0 ≤ k ∧ k ≤ MaxInt64) ∧
        ∃ n, Atoi (args.getD 1 "") = (n, none) ∧ 27 ≤ n ∧ n ≤ 127) := by
  by_cases h3 : args.length = 3
  · have h2 : args.length ≠ 2 := by omega
    simp only [h3, h2, false_and, true_and, false_or]
    rw [← validateIntBetween_none _ 0 MaxInt64 "minutes to simulate",
      ← validateIntBetween_none _ 27 127 "number of balls"]
    cases hv : (validateIntBetween (args.getD 2 "") 0 MaxInt64 "minutes to simulate").2 with
    | none =>
      rw [handleUserInput_three_ok args h3 hv]
      simp
    | some e =>
      rw [handleUserInput_three_err args h3 e hv]
      simp
  · by_cases h2 : args.length = 2
    · simp only [h3, h2, false_and, true_and, or_false]
      rw [← validateIntBetween_none _ 27 127 "number of balls", handleUserInput_two args h2]
      simp
    · rw [handleUserInput_other args h3 h2]
      simp [h3, h2]

theorem handleUserInput_success (args : List String) :
    (∃ e, (handleUserInput args).2.2.2 = some e) ∨
      ((Atoi (args.getD 1 "")).2 = none ∧
        (handleUserInput args).1 = (Atoi (args.getD 1 "")).1 ∧
        (handleUserInput args).2.2.1 = (args.length : Int) - 1) := by
  cases herr : (handleUserInput args).2.2.2 with
  | some e => exact Or.inl ⟨e, rfl⟩
  | none =>
    right
    rcases (handleUserInput_none_iff args).mp herr with
      ⟨h2, n, hn, -, -⟩ | ⟨h3, ⟨k, hk, hk0, hk1⟩, n, hn, -, -⟩
    · rw [handleUserInput_two args h2, validateIntBetween_fst, hn, h2]
      simp
    · have hv := (validateIntBetween_none (args.getD 2 "") 0 MaxInt64
        "minutes to simulate").mpr ⟨k, hk, hk0, hk1⟩
      rw [handleUserInput_three_ok args h3 hv, validateIntBetween_fst, hn, h3]
      simp

/-- C15, input validation accepts exactly the in-range inputs: `handleUserInput(args)`
returns a nil error if and only if either `len(args) = 2` and `args[1]` parses as an integer
`n` with `27 ≤ n ≤ 127`, or `len(args) = 3`, `args[2]` parses as an integer `k` with
`0 ≤ k ≤ MaxInt64` and `args[1]` parses as an integer `n` with `27 ≤ n ≤ 127`; either an
error is returned or `numBalls` is the integer parsed from `args[1]` and `mode` is
`len(args) - 1`; the ball counts 26 and 128 and the text `abc` are rejected, 27 and 127 are
accepted. -/
theorem handleUserInput_accepts_exactly (args : List String) :
    ((handleUserInput args).2.2.2 = none ↔
      (args.length = 2 ∧ ∃ n, Atoi (args.getD 1 "") = (n, none) ∧ 27 ≤ n ∧ n ≤ 127) ∨
      (args.length = 3 ∧ (∃ k, Atoi (args.getD 2 "") = (k, none) ∧ 0 ≤ k ∧ k ≤ MaxInt64) ∧
        ∃ n, Atoi (args.getD 1 "") = (n, none) ∧ 27 ≤ n ∧ n ≤ 127)) ∧
    ((∃ e, (handleUserInput args).2.2.2 = some e) ∨
      ((Atoi (args.getD 1 "")).2 = none ∧
        (handleUserInput args).1 = (Atoi (args.getD 1 "")).1 ∧
        (handleUserInput args).2.2.1 = (args.length : Int) - 1)) ∧
    handleUserInput ["ball-clock", "26"]
      = (26, MaxInt64, 1, some (.notBetween "number of balls" 27 127 26)) ∧
    handleUserInput ["ball-clock", "128"]
      = (128, MaxInt64, 1, some (.notBetween "number of balls" 27 127 128)) ∧
    handleUserInput ["ball-clock", "abc"]
      = (0, MaxInt64, 1, some (.nonInteger "abc" .notANumber)) ∧
    handleUserInput ["ball-clock", "27"] = (27, MaxInt64, 1, none) ∧
    handleUserInput ["ball-clock", "127"] = (127, MaxInt64, 1, none) ∧
    handleUserInput ["ball-clock", "127", "0"] = (127, 0, 2, none) ∧
    handleUserInput ["ball-clock", "30", "-1"]
      = (0, -1, 2, some (.notBetween "minutes to simulate" 0 MaxInt64 (-1))) :=
  ⟨handleUserInput_none_iff args, handleUserInput_success args, by decide, by decide,
    by decide, by decide, by decide, by decide, by decide⟩

/-! ## The initial state and the order check, as stated -/

theorem ascending_eq_range (n : Nat) :
    ascending n = (List.range n).map (fun i : Nat => (i : Int) + 1) := by
  unfold ascending
  rw [List.range'_eq_map_range, List.map_map]
  apply List.map_congr_left
  intro i _
  simp only [Function.comp_apply]
  push_cast
  ring

theorem sequenceIsOrdered_iff_getElem (a : List Ball) :
    sequenceIsOrdered a = true ↔ ∀ (i : Nat) (h : i + 1 < a.length), a[i] < a[i + 1] := by
  rw [sequenceIsOrdered_iff_getD]
  constructor
  · intro h i hi
    have := h i hi
    rw [List.getD_eq_getElem _ _ (by omega : i < a.length), List.getD_eq_getElem _ _ hi] at this
    exact this
  · intro h i hi
    rw [List.getD_eq_getElem _ _ (by omega : i < a.length), List.getD_eq_getElem _ _ hi]
    exact h i hi

theorem sequenceIsOrdered_equal_pair (l l' : List Ball) (x : Ball) :
    sequenceIsOrdered (l ++ x :: x :: l') = false := by
  cases h : sequenceIsOrdered (l ++ x :: x :: l') with
  | false => rfl
  | true =>
    have h1 : (l ++ x :: x :: l').Pairwise (· < ·) := (sequenceIsOrdered_iff_sorted _).mp h
    have h2 := (List.pairwise_cons.mp (List.pairwise_append.mp h1).2.1).1 x
      (List.mem_cons_self x l')
    exact absurd h2 (lt_irrefl x)

/-- C16, the initial state: for every size `n`, `fillSequencialArray(n)` is the list of
length `n` whose element at index `i` (from 0) is `i + 1`, that is `[1, 2, ..., n]`; the
state `main` builds from it has Main = `[1..n]` and Min, FiveMin and Hour empty, and the
loop is entered with the minute counter 0. -/
theorem initial_state (n : Nat) :
    (fillSequencialArray n).length = n ∧
    fillSequencialArray n = (List.range n).map (fun i : Nat => (i : Int) + 1) ∧
    (∀ i : Fin n, (fillSequencialArray n)[i.val]? = some ((i.val : Int) + 1)) ∧
    fillSequencialArray n = ascending n ∧
    initialSequences n = ⟨ascending n, [], [], []⟩ ∧
    ∀ (minutesToSimulate mode : Int) (fuel : Nat),
      mainRun n minutesToSimulate mode fuel
        = mainLoop n minutesToSimulate mode fuel ⟨ascending n, [], [], []⟩ 0 := by
  have e : fillSequencialArray n = (List.range n).map (fun i : Nat => (i : Int) + 1) := by
    rw [fillSequencialArray_eq, ascending_eq_range]
  refine ⟨by rw [fillSequencialArray_eq, ascending_length], e, ?_, fillSequencialArray_eq n,
    initialSequences_eq n, ?_⟩
  · intro i
    rw [e]
    simp [List.getElem?_range, i.isLt]
  · intro X mode fuel
    rw [mainRun, initialSequences_eq]

/-- C17, the order check: for every list `a` of balls, `sequenceIsOrdered(a)` returns true
if and only if `a[i] < a[i+1]` for every index `i` with `0 ≤ i < len(a) - 1`; a list with
two equal adjacent balls gives false; the empty list and every one-element list give
true. -/
theorem sequenceIsOrdered_strictly_increasing (a : List Ball) :
    (sequenceIsOrdered a = true ↔ ∀ (i : Nat) (h : i + 1 < a.length), a[i] < a[i + 1]) ∧
    (∀ (l l' : List Ball) (x : Ball), sequenceIsOrdered (l ++ x :: x :: l') = false) ∧
    sequenceIsOrdered [] = true ∧
    ∀ x : Ball, sequenceIsOrdered [x] = true :=
  ⟨sequenceIsOrdered_iff_getElem a, sequenceIsOrdered_equal_pair, rfl, fun _ => rfl⟩

/-! ## What a finished run of the loop has done -/

theorem wrapInt64_step (x : Int) (k : Nat) :
    wrapInt64 (wrapInt64 (x + 1) + k) = wrapInt64 (x + (k + 1 : Nat)) := by
  unfold wrapInt64
  push_cast
  omega

theorem mainLoop_finished (N : Nat) (X mode : Int) :
    ∀ (fuel : Nat) (s t : Sequences) (c m : Int),
      mainLoop N X mode fuel s c = .finished t m →
      ∃ k, 1 ≤ k ∧ k ≤ fuel ∧ simulate k s = some t ∧ m = wrapInt64 (c + (k : Nat)) ∧
        ((mode = 2 ∧ m ≥ X) ∨ (mode = 1 ∧ cycleComplete N t = true)) := by
  intro fuel
  induction fuel with
  | zero =>
    intro s t c m h
    rw [mainLoop] at h
    cases h
  | succ fuel ih =>
    intro s t c m h
    rw [mainLoop] at h
    cases hs : simulateOneMinute s with
    | none => rw [hs] at h; cases h
    | some s1 =>
      rw [hs] at h
      simp only at h
      have hone : simulate 1 s = some s1 := by rw [simulate, hs]; rfl
      by_cases c1 : mode = 2 ∧ wrapInt64 (c + 1) ≥ X
      · rw [if_pos c1] at h
        cases h
        exact ⟨1, le_refl _, by omega, hone, by simp, Or.inl c1⟩
      · rw [if_neg c1] at h
        by_cases c2 : mode = 1 ∧ cycleComplete N s1 = true
        · rw [if_pos c2] at h
          cases h
          exact ⟨1, le_refl _, by omega, hone, by simp, Or.inr c2⟩
        · rw [if_neg c2] at h
          obtain ⟨k, k1, k2, hk, hm, hend⟩ := ih s1 t (wrapInt64 (c + 1)) m h
          refine ⟨k + 1, by omega, by omega, ?_, ?_, hend⟩
          · rw [Nat.add_comm, simulate_add, hone]
            exact hk
          · rw [hm, wrapInt64_step]

theorem mainRun_mode2_zero (N : Nat) (hN : 27 ≤ N) :
    ∃ t, simulate 1 (initialSequences N) = some t ∧
      ∀ fuel, mainRun N 0 2 fuel = if 1 ≤ fuel then .finished t 1 else .running := by
  obtain ⟨t, ht, -⟩ := simulate_inv N hN 1
  refine ⟨t, ht, fun fuel => ?_⟩
  obtain ⟨s1, e1, e2⟩ := simulate_succ_some 0 _ t ht
  cases e2
  cases fuel with
  | zero => rfl
  | succ fuel =>
    rw [mainRun, mainLoop, e1]
    simp [wrapInt64]

theorem mainRun_mode2_max (N : Nat) (hN : 27 ≤ N) (M : Nat) (hb : (M : Int) ≤ MaxInt64) :
    ∃ t, simulate (max 1 M) (initialSequences N) = some t ∧
      ∀ fuel, mainRun N (M : Int) 2 fuel
        = if max 1 M ≤ fuel then .finished t ((max 1 M : Nat) : Int) else .running := by
  rcases Nat.eq_zero_or_pos M with h0 | hpos
  · subst h0
    obtain ⟨t, ht, hrun⟩ := mainRun_mode2_zero N hN
    exact ⟨t, ht, fun fuel => by simpa using hrun fuel⟩
  · have hmax : max 1 M = M := by omega
    rw [hmax]
    obtain ⟨t, ht, -⟩ := simulate_inv N hN M
    refine ⟨t, ht, fun fuel => ?_⟩
    obtain ⟨u, hu, hrun⟩ := mainRun_mode2 N hN M hpos hb fuel
    rw [ht] at hu
    cases hu
    exact hrun

theorem simulate_27_return :
    simulate 33120 (initialSequences 27) = some (initialSequences 27) := by
  have := simulate_halfDays 27 halfDay27 rfl simulate_halfDay27 46
  rw [halfDay27_return, ← initialSequences_eq] at this
  exact this

/-- C18, the track lengths read the elapsed time: for every `N` with `27 ≤ N ≤ 127` and
every `M`, after `M` applications of `simulateOneMinute` to the initial state,
`len(Min) = M mod 5`, `len(FiveMin) = (M div 5) mod 12`, `len(Hour) = (M div 60) mod 12` and
`len(Main) = N - len(Min) - len(FiveMin) - len(Hour)`, the four lengths adding up to `N`. -/
theorem track_lengths_read_time (N : Nat) (hlo : 27 ≤ N) (hhi : N ≤ 127) (M : Nat) :
    ∃ s, simulate M (initialSequences N) = some s ∧ s.Min.length = M % 5 ∧
      s.FiveMin.length = M / 5 % 12 ∧ s.Hour.length = M / 60 % 12 ∧
      s.Main.length = N - s.Min.length - s.FiveMin.length - s.Hour.length ∧
      s.Main.length + s.Min.length + s.FiveMin.length + s.Hour.length = N := by
  have _ := hhi
  obtain ⟨s, hs, hp, h1, h2, h3⟩ := simulate_inv N hlo M
  have hlen := hp.length_eq
  rw [ascending_length] at hlen
  simp only [Sequences.all, List.length_append] at hlen
  exact ⟨s, hs, h1, h2, h3, by omega, hlen⟩

theorem track_lengths_read_time_witness :
    27 ≤ 30 ∧ 30 ≤ 127 ∧
    ∃ s, simulate 1234 (initialSequences 30) = some s ∧ s.Min.length = 1234 % 5 ∧
      s.FiveMin.length = 1234 / 5 % 12 ∧ s.Hour.length = 1234 / 60 % 12 ∧
      s.Main.length = 30 - s.Min.length - s.FiveMin.length - s.Hour.length ∧
      s.Main.length + s.Min.length + s.FiveMin.length + s.Hour.length = 30 :=
  ⟨by decide, by decide, track_lengths_read_time 30 (by decide) (by decide) 1234⟩

/-- C19, cycles are whole half-days: for every `N` with `27 ≤ N ≤ 127` and every `M ≥ 1`, if
the state after `M` applications of `simulateOneMinute` to the initial state satisfies the
mode-1 end condition `len(Main) == N && sequenceIsOrdered(Main)`, then `M` is a positive
multiple of 720; hence whenever the loop of cycle-length mode is left, the number `k` of
minutes it has simulated is a positive multiple of 720 (`minutesSimulated` holds `k` as a
64-bit `int`). -/
theorem cycles_are_whole_half_days (N : Nat) (hlo : 27 ≤ N) (hhi : N ≤ 127) :
    (∀ (M : Nat) (s : Sequences), 1 ≤ M → simulate M (initialSequences N) = some s →
      s.Main.length = N ∧ sequenceIsOrdered s.Main = true → 720 ∣ M ∧ 720 ≤ M) ∧
    (∀ (fuel : Nat) (t : Sequences) (minutesSimulated : Int),
      mainRun N MaxInt64 1 fuel = .finished t minutesSimulated →
      ∃ k : Nat, 720 ∣ k ∧ 720 ≤ k ∧ k ≤ fuel ∧ simulate k (initialSequences N) = some t ∧
        minutesSimulated = wrapInt64 (k : Int)) := by
  have _ := hhi
  have key : ∀ (M : Nat) (s : Sequences), 1 ≤ M → simulate M (initialSequences N) = some s →
      cycleComplete N s = true → 720 ∣ M ∧ 720 ≤ M := by
    intro M s h1 hs hc
    have hmod : M % 720 = 0 := by
      by_contra hne
      rw [cycleComplete_false_of_off_half_day N hlo M s hs hne] at hc
      cases hc
    exact ⟨Nat.dvd_of_mod_eq_zero hmod, by omega⟩
  refine ⟨fun M s h1 hs hc => key M s h1 hs (by simp [cycleComplete, hc.1, hc.2]), ?_⟩
  intro fuel t m hrun
  obtain ⟨k, k1, k2, hk, hm, hend⟩ := mainLoop_finished N MaxInt64 1 fuel _ t 0 m hrun
  have hc : cycleComplete N t = true := by
    rcases hend with ⟨h, -⟩ | ⟨-, h⟩
    · exact absurd h (by decide)
    · exact h
  obtain ⟨d1, d2⟩ := key k t k1 hk hc
  exact ⟨k, d1, d2, k2, hk, by rw [hm, Int.zero_add]⟩

theorem cycles_are_whole_half_days_witness :
    27 ≤ 27 ∧ 27 ≤ 127 ∧ 1 ≤ 33120 ∧
    simulate 33120 (initialSequences 27) = some (initialSequences 27) ∧
    ((initialSequences 27).Main.length = 27 ∧
      sequenceIsOrdered (initialSequences 27).Main = true) ∧
    (720 ∣ 33120 ∧ 720 ≤ 33120) ∧
    mainRun 27 MaxInt64 1 40000 = .finished (initialSequences 27) 33120 ∧
    ∃ k : Nat, 720 ∣ k ∧ 720 ≤ k ∧ k ≤ 40000 ∧
      simulate k (initialSequences 27) = some (initialSequences 27) ∧
      (33120 : Int) = wrapInt64 (k : Int) :=
  ⟨by decide, by decide, by decide, simulate_27_return, by decide,
    (cycles_are_whole_half_days 27 (by decide) (by decide)).1 33120 (initialSequences 27)
      (by decide) simulate_27_return (by decide),
    by rw [mainRun_27]; rfl,
    (cycles_are_whole_half_days 27 (by decide) (by decide)).2 40000 (initialSequences 27) 33120
      (by rw [mainRun_27]; rfl)⟩

/-- C20, the driving loop is a do-while: for every `N` with `27 ≤ N ≤ 127`, every mode and
every requested minute count, the loop of `main` is never left before `simulateOneMinute`
has been applied at least once (a finished run has applied it `k ≥ 1` times, and no end
condition is evaluated with no iteration done), and in mode 2 with the requested minute
count `M ≥ 0` the loop is left after exactly `max(1, M)` steps, with the state after
`max(1, M)` minutes as the snapshot. -/
theorem driving_loop_is_do_while (N : Nat) (hlo : 27 ≤ N) (hhi : N ≤ 127) :
    (∀ (minutesToSimulate mode : Int) (fuel : Nat) (t : Sequences) (minutesSimulated : Int),
      mainRun N minutesToSimulate mode fuel = .finished t minutesSimulated →
      ∃ k : Nat, 1 ≤ k ∧ k ≤ fuel ∧ simulate k (initialSequences N) = some t) ∧
    (∀ minutesToSimulate mode : Int, mainRun N minutesToSimulate mode 0 = .running) ∧
    (∀ M : Nat, (M : Int) ≤ MaxInt64 →
      ∃ t, simulate (max 1 M) (initialSequences N) = some t ∧
        ∀ fuel, mainRun N (M : Int) 2 fuel
          = if max 1 M ≤ fuel then .finished t ((max 1 M : Nat) : Int) else .running) := by
  have _ := hhi
  refine ⟨?_, fun _ _ => rfl, fun M hM => mainRun_mode2_max N hlo M hM⟩
  intro X mode fuel t m hrun
  obtain ⟨k, k1, k2, hk, -, -⟩ := mainLoop_finished N X mode fuel _ t 0 m hrun
  exact ⟨k, k1, k2, hk⟩

theorem driving_loop_is_do_while_witness :
    27 ≤ 30 ∧ 30 ≤ 127 ∧
    mainRun 30 0 2 1 = .finished ⟨[2, 3, 4, 5, 6, 7, 8, 9, 10, 11, 12, 13, 14, 15, 16, 17, 18, 19, 20, 21, 22, 23, 24, 25, 26, 27, 28, 29, 30], [1], [], []⟩ 1 ∧
    (∃ k : Nat, 1 ≤ k ∧ k ≤ 1 ∧
      simulate k (initialSequences 30) = some ⟨[2, 3, 4, 5, 6, 7, 8, 9, 10, 11, 12, 13, 14, 15, 16, 17, 18, 19, 20, 21, 22, 23, 24, 25, 26, 27, 28, 29, 30], [1], [], []⟩) ∧
    mainRun 30 0 2 0 = .running ∧
    ((0 : Nat) : Int) ≤ MaxInt64 ∧
    ∃ t, simulate (max 1 0) (initialSequences 30) = some t ∧
      ∀ fuel, mainRun 30 ((0 : Nat) : Int) 2 fuel
        = if max 1 0 ≤ fuel then .finished t ((max 1 0 : Nat) : Int) else .running :=
  ⟨by decide, by decide, by decide,
    (driving_loop_is_do_while 30 (by decide) (by decide)).1 0 2 1 _ 1 (by decide),
    (driving_loop_is_do_while 30 (by decide) (by decide)).2.1 0 2,
    by decide,
    (driving_loop_is_do_while 30 (by decide) (by decide)).2.2 0 (by decide)⟩

end BallClock
